import Mathlib

/-!
Verification of the recurrence-materialization / timer / streak engine of the
task-tracker backend (`apps/tasks/occurrences.py`, `apps/tasks/api.py`,
`apps/streak/api.py`, `apps/tasks/models.py`).

Modelling conventions:
* Calendar dates are `PDate` triples (proleptic Gregorian), mirroring
  `datetime.date`; `toOrdinal` matches Python's `date.toordinal`.
* Timestamps (`datetime`) are a date plus a second-of-day (`PDateTime`); all
  code under verification only uses whole-second arithmetic on them.
* Python floats in the streak engine are modelled by exact rationals, with
  `round(x, 2)` modelled as decimal rounding to hundredths, ties to even
  (Python's `round` semantics on the underlying value).
* The Django occurrence table is a list of rows (`Store`); `bulk_create` with
  `ignore_conflicts=True` is modelled by inserting only rows whose
  `(task, date)` key is not already present.
* `while` loops are translated as fuel recursion, with the fuel instantiated
  to an exact iteration bound at the call site.
-/

/-- Calendar date, mirroring `datetime.date` (proleptic Gregorian). -/
structure PDate where
  year : Nat
  month : Nat
  day : Nat
deriving DecidableEq

/-- Lexicographic order on dates; for valid dates this is the calendar order
used by Python's `date` comparisons. -/
def pdLe (a b : PDate) : Bool :=
  decide (a.year < b.year) ||
    (decide (a.year = b.year) &&
      (decide (a.month < b.month) ||
        (decide (a.month = b.month) && decide (a.day ≤ b.day))))

/-- `max` of two dates (Python `max` on `date`). -/
def pdMax (a b : PDate) : PDate := if pdLe a b then b else a

/-- `min` of two dates (Python `min` on `date`). -/
def pdMin (a b : PDate) : PDate := if pdLe a b then a else b

/-- Gregorian leap-year rule (`calendar.isleap`). -/
def isLeapYear (y : Nat) : Bool :=
  (y % 4 == 0 && y % 100 != 0) || (y % 400 == 0)

/-- Number of days in month `m` of year `y` (`calendar.monthrange(y, m)[1]`). -/
def monthLength (y m : Nat) : Nat :=
  if m = 2 then (if isLeapYear y then 29 else 28)
  else if m = 4 ∨ m = 6 ∨ m = 9 ∨ m = 11 then 30
  else 31

/-- Days in the months of year `y` strictly before month `m`. -/
def daysBeforeMonth (y m : Nat) : Nat :=
  (List.range (m - 1)).foldl (fun acc i => acc + monthLength y (i + 1)) 0

/-- Days in the years strictly before year `y` (proleptic Gregorian). -/
def daysBeforeYear (y : Nat) : Nat :=
  365 * (y - 1) + (y - 1) / 4 - (y - 1) / 100 + (y - 1) / 400

/-- `date.toordinal`: day 1 is January 1 of year 1. -/
def toOrdinal (d : PDate) : Nat :=
  daysBeforeYear d.year + daysBeforeMonth d.year d.month + d.day

/-- Successor date (one day later) for a valid date. -/
def nextDay (d : PDate) : PDate :=
  if d.day < monthLength d.year d.month then ⟨d.year, d.month, d.day + 1⟩
  else if d.month < 12 then ⟨d.year, d.month + 1, 1⟩
  else ⟨d.year + 1, 1, 1⟩

/-- `d` plus `n` days (`timedelta` addition) for a valid date. -/
def addDays (d : PDate) : Nat → PDate
  | 0 => d
  | n + 1 => nextDay (addDays d n)

/-- Python `date.weekday()`: Monday = 0 … Sunday = 6. -/
def pyWeekday (d : PDate) : Nat := (toOrdinal d + 6) % 7

/-- Frontend weekday convention used by `custom_days`: Sunday = 0 … Saturday = 6
(the `(candidate.weekday() + 1) % 7` conversion in the source). -/
def frontendWeekday (d : PDate) : Nat := (pyWeekday d + 1) % 7

/-- Timestamp: a date plus a second-of-day, mirroring `datetime`. -/
structure PDateTime where
  date : PDate
  sec : Nat
deriving DecidableEq

/-- Seconds since the epoch of `toOrdinal`; differences of `toSec` match
`(a - b).total_seconds()` for whole-second datetimes. -/
def PDateTime.toSec (t : PDateTime) : Int :=
  (toOrdinal t.date : Int) * 86400 + t.sec

/-- `Task.RecurringPattern` choices. -/
inductive RecurringPattern
  | daily
  | monthly
  | yearly
  | custom
deriving DecidableEq

/-- `Task.Status` / `TaskOccurrence.Status` choices. -/
inductive TStatus
  | pending
  | completed
deriving DecidableEq

/-- The fields of `apps.tasks.models.Task` that the occurrence, timer and
streak machinery reads. -/
structure TaskDef where
  id : Nat
  scheduledDate : PDate
  isRecurring : Bool
  recurringPattern : Option RecurringPattern
  customDays : List Nat
  status : TStatus
  completedAt : Option PDateTime
  timerTotalSeconds : Nat
  timerDurationSeconds : Nat
  hasTimer : Bool
  hasDeadline : Bool
  deadlineTimeSec : Option Nat
  timerRunningSince : Option PDateTime
deriving DecidableEq

/-- A row of `apps.tasks.models.TaskOccurrence`. -/
structure Occ where
  taskId : Nat
  date : PDate
  status : TStatus
  completedAt : Option PDateTime
  timerSeconds : Nat
  timerRunningSince : Option PDateTime
deriving DecidableEq

/-- One step of the month cursor in `_iter_monthly_dates`
(`cursor.month == 12` rollover). -/
def nextMonthStart (c : PDate) : PDate :=
  if c.month = 12 then ⟨c.year + 1, 1, 1⟩ else ⟨c.year, c.month + 1, 1⟩

/-- The `while cursor <= end` loop of `_iter_monthly_dates`, as fuel
recursion. -/
def iterMonthlyAux (startD endD : PDate) (day : Nat) : Nat → PDate → List PDate
  | 0, _ => []
  | fuel + 1, cursor =>
    if pdLe cursor endD then
      let rest := iterMonthlyAux startD endD day fuel (nextMonthStart cursor)
      if day ≤ monthLength cursor.year cursor.month ∧
          pdLe startD ⟨cursor.year, cursor.month, day⟩ ∧
          pdLe ⟨cursor.year, cursor.month, day⟩ endD then
        ⟨cursor.year, cursor.month, day⟩ :: rest
      else rest
    else []

/-- `_iter_monthly_dates(start, end, day)`: the loop runs once per calendar
month from `start`'s month while `cursor <= end`, so
`(end.year * 12 + end.month + 1) - (start.year * 12 + start.month)` months
bound the iteration count exactly. -/
def iterMonthlyDates (startD endD : PDate) (day : Nat) : List PDate :=
  iterMonthlyAux startD endD day
    (endD.year * 12 + endD.month + 1 - (startD.year * 12 + startD.month))
    ⟨startD.year, startD.month, 1⟩

/-- `_iter_yearly_dates(start, end, month, day)`: one candidate per year in
`range(start.year, end.year + 1)`, skipped when `date(year, month, day)` does
not exist. -/
def iterYearlyDates (startD endD : PDate) (month day : Nat) : List PDate :=
  ((List.range (endD.year + 1 - startD.year)).map (fun i => startD.year + i)).foldr
    (fun y acc =>
      if day ≤ monthLength y month then
        if pdLe startD ⟨y, month, day⟩ && pdLe ⟨y, month, day⟩ endD then
          ⟨y, month, day⟩ :: acc
        else acc
      else acc)
    []

/-- `occurrence_dates_for_task(task, range_start, range_end)`: the recurrence
evaluator. -/
def occurrence_dates_for_task (t : TaskDef) (rangeStart rangeEnd : PDate) : List PDate :=
  if ¬ pdLe rangeStart rangeEnd then []
  else
    let firstDate := t.scheduledDate
    if ¬ pdLe firstDate rangeEnd then []
    else
      let effectiveStart := pdMax firstDate rangeStart
      if t.isRecurring = false ∨ t.recurringPattern = none then
        if pdLe effectiveStart firstDate ∧ pdLe firstDate rangeEnd then [firstDate] else []
      else if t.recurringPattern = some .daily then
        let days : Int := (toOrdinal rangeEnd : Int) - (toOrdinal effectiveStart : Int)
        (List.range (days + 1).toNat).map (addDays effectiveStart)
      else if t.recurringPattern = some .monthly then
        iterMonthlyDates effectiveStart rangeEnd firstDate.day
      else if t.recurringPattern = some .yearly then
        iterYearlyDates effectiveStart rangeEnd firstDate.month firstDate.day
      else
        if t.customDays = [] then
          if pdLe effectiveStart firstDate ∧ pdLe firstDate rangeEnd then [firstDate] else []
        else
          let days : Int := (toOrdinal rangeEnd : Int) - (toOrdinal effectiveStart : Int)
          ((List.range (days + 1).toNat).map (addDays effectiveStart)).filter
            (fun c => frontendWeekday c ∈ t.customDays)

/-- `task_occurs_on_date(task, target_date)`. -/
def task_occurs_on_date (t : TaskDef) (targetDate : PDate) : Bool :=
  decide (0 < (occurrence_dates_for_task t targetDate targetDate).length)

/-- The persisted `TaskOccurrence` table, as an ordered list of rows. -/
abbrev Store := List Occ

/-- The `(task_id, date)` key of a row (the `unique_task_occurrence_per_date`
constraint). -/
def occKey (o : Occ) : Nat × PDate := (o.taskId, o.date)

/-- First row with the given `(task_id, date)` key
(`TaskOccurrence.objects.filter(task=..., date=...).first()`). -/
def lookupOcc : Store → Nat × PDate → Option Occ
  | [], _ => none
  | o :: rest, k => if occKey o = k then some o else lookupOcc rest k

/-- Store well-formedness: the database unique constraint on `(task, date)`. -/
def StoreWF (s : Store) : Prop :=
  List.Pairwise (fun a b => occKey a ≠ occKey b) s

/-- Seed row built for a missing `(task, occurrence_date)` pair inside
`ensure_occurrences_for_tasks`: completed for a completed non-recurring task
at its anchor date, completed for a completed recurring template whose
`completed_at` falls on the date (legacy migration path), pending otherwise. -/
def seedOccurrence (t : TaskDef) (d : PDate) : Occ :=
  if t.isRecurring = false ∧ t.status = .completed ∧ d = t.scheduledDate then
    ⟨t.id, d, .completed, t.completedAt, t.timerTotalSeconds, none⟩
  else if t.isRecurring = true ∧ t.status = .completed ∧
      t.completedAt.map (fun ca => ca.date) = some d then
    ⟨t.id, d, .completed, t.completedAt, t.timerTotalSeconds, none⟩
  else
    ⟨t.id, d, .pending, none, 0, none⟩

/-- The flattened `for task in tasks: for occurrence_date in
occurrence_dates_for_task(...)` iteration of the materializer. -/
def ensureRows (tasks : List TaskDef) (rangeStart rangeEnd : PDate) :
    List (TaskDef × PDate) :=
  tasks.flatMap fun t =>
    (occurrence_dates_for_task t rangeStart rangeEnd).map fun d => (t, d)

/-- `existing_pairs`: keys of stored rows for these tasks within the range. -/
def existingPairs (tasks : List TaskDef) (rangeStart rangeEnd : PDate) (s : Store) :
    List (Nat × PDate) :=
  (s.filter fun o =>
      (tasks.map (fun t => t.id)).contains o.taskId &&
      pdLe rangeStart o.date && pdLe o.date rangeEnd).map occKey

/-- The `to_create` accumulation loop: skip keys already seen, otherwise seed
a row and remember the key. -/
def buildToCreate : List (TaskDef × PDate) → List (Nat × PDate) → List Occ
  | [], _ => []
  | (t, d) :: rest, pairs =>
    if (t.id, d) ∈ pairs then buildToCreate rest pairs
    else seedOccurrence t d :: buildToCreate rest ((t.id, d) :: pairs)

/-- The rows `ensure_occurrences_for_tasks` hands to `bulk_create`. -/
def ensureCreated (tasks : List TaskDef) (rangeStart rangeEnd : PDate) (s : Store) :
    List Occ :=
  buildToCreate (ensureRows tasks rangeStart rangeEnd)
    (existingPairs tasks rangeStart rangeEnd s)

/-- `bulk_create(..., ignore_conflicts=True)`: insert each row unless a row
with its `(task, date)` key already exists. -/
def bulkCreateIgnoreConflicts (s : Store) (rows : List Occ) : Store :=
  rows.foldl
    (fun acc r => if (lookupOcc acc (occKey r)).isSome then acc else acc ++ [r]) s

/-- `ensure_occurrences_for_tasks(tasks, range_start, range_end)` as a store
transformer. -/
def ensure_occurrences_for_tasks (tasks : List TaskDef) (rangeStart rangeEnd : PDate)
    (s : Store) : Store :=
  if tasks.isEmpty || !pdLe rangeStart rangeEnd then s
  else bulkCreateIgnoreConflicts s (ensureCreated tasks rangeStart rangeEnd s)

/-- `ensure_occurrence_for_task_date(task, target_date)`: materialize the
range `[d, d]`, return the stored row, creating a plain pending row if the
evaluator produced nothing for the date. -/
def ensure_occurrence_for_task_date (t : TaskDef) (d : PDate) (s : Store) :
    Store × Occ :=
  let s1 := ensure_occurrences_for_tasks [t] d d s
  match lookupOcc s1 (t.id, d) with
  | some o => (s1, o)
  | none => (s1 ++ [⟨t.id, d, .pending, none, 0, none⟩], ⟨t.id, d, .pending, none, 0, none⟩)

/-- `occurrence_elapsed_seconds(task, occurrence, now)` with the explicit
clock reading. -/
def occurrence_elapsed_seconds (t : TaskDef) (o : Occ) (now : PDateTime) : Int :=
  let elapsed : Int := o.timerSeconds
  let elapsed :=
    match o.timerRunningSince with
    | some rs => elapsed + max 0 (now.toSec - rs.toSec)
    | none => elapsed
  if 0 < t.timerDurationSeconds then min elapsed (t.timerDurationSeconds : Int)
  else elapsed

/-- The error taxonomy raised by the single-occurrence endpoints. -/
inductive ApiErr
  | validationError
  | occurrenceDateRequired
deriving DecidableEq

/-- `_resolve_target_date(task, target_date)`. -/
def resolveTargetDate (t : TaskDef) (targetDate : Option PDate) : Except ApiErr PDate :=
  if t.isRecurring = true ∧ targetDate = none then .error .occurrenceDateRequired
  else
    let resolved := targetDate.getD t.scheduledDate
    if task_occurs_on_date t resolved then .ok resolved
    else .error .validationError

/-- Row update at a key (locked fetch-and-save of the matching row). -/
def updateAt (s : Store) (k : Nat × PDate) (f : Occ → Occ) : Store :=
  s.map fun o => if occKey o = k then f o else o

/-- `Task.save()` field normalization (`apps.tasks.models.Task.save`):
recurring templates are forced back to pending with no completion or timer
state; completion timestamps are kept consistent with the status. -/
def saveNormalize (t : TaskDef) (now : PDateTime) : TaskDef :=
  let t :=
    if t.isRecurring then
      { t with status := .pending, completedAt := none,
               timerTotalSeconds := 0, timerRunningSince := none }
    else t
  let t :=
    if t.status = .completed ∧ t.completedAt = none then
      { t with completedAt := some now }
    else t
  if ¬ t.status = .completed then { t with completedAt := none } else t

/-- `get_task_occurrence` (GET `/tasks/occurrence`): occurrence-store effect
and returned row. -/
def get_task_occurrence (t : TaskDef) (d : PDate) (s : Store) :
    Except ApiErr (Store × Occ) :=
  match resolveTargetDate t (some d) with
  | .error e => .error e
  | .ok target => .ok (ensure_occurrence_for_task_date t target s)

/-- `complete_task`: occurrence-store effect (the non-recurring template
sync touches only the task row and is outside the occurrence store). -/
def complete_task (t : TaskDef) (dateValue : Option PDate) (now : PDateTime)
    (s : Store) : Except ApiErr Store :=
  match resolveTargetDate t dateValue with
  | .error e => .error e
  | .ok target =>
    let s1 := (ensure_occurrence_for_task_date t target s).1
    .ok (updateAt s1 (t.id, target) fun o =>
      let o :=
        if o.timerRunningSince.isSome then
          { o with timerSeconds := (occurrence_elapsed_seconds t o now).toNat,
                   timerRunningSince := none }
        else o
      { o with status := .completed, completedAt := some now })

/-- `start_timer`: occurrence-store effect (the `has_timer` toggle and the
non-recurring template sync touch only the task row). -/
def start_timer (t : TaskDef) (dateValue : Option PDate) (now : PDateTime)
    (s : Store) : Except ApiErr Store :=
  match resolveTargetDate t dateValue with
  | .error e => .error e
  | .ok target =>
    let s1 := (ensure_occurrence_for_task_date t target s).1
    .ok (updateAt s1 (t.id, target) fun o =>
      if ¬ o.status = .completed ∧ o.timerRunningSince = none then
        { o with timerRunningSince := some now }
      else o)

/-- `stop_timer`: occurrence-store effect. -/
def stop_timer (t : TaskDef) (dateValue : Option PDate) (now : PDateTime)
    (s : Store) : Except ApiErr Store :=
  match resolveTargetDate t dateValue with
  | .error e => .error e
  | .ok target =>
    let s1 := (ensure_occurrence_for_task_date t target s).1
    .ok (updateAt s1 (t.id, target) fun o =>
      if o.timerRunningSince.isSome then
        { o with timerSeconds := (occurrence_elapsed_seconds t o now).toNat,
                 timerRunningSince := none }
      else o)

/-- Occurrence-store effect of `patch_task`. `fieldsTouched` stands for the
`payload.model_fields_set` test on the schedule/recurrence/deadline fields;
`t0` is the task as rebuilt from the payload, before `task.save()`. -/
def patch_task_occurrences (prevScheduledDate : PDate) (prevIsRecurring : Bool)
    (fieldsTouched : Bool) (t0 : TaskDef) (now : PDateTime) (s : Store) : Store :=
  let t := saveNormalize t0 now
  if t.isRecurring then
    let s1 :=
      if prevIsRecurring && fieldsTouched then
        s.filter fun o =>
          ¬ (o.taskId = t.id ∧ o.status = .pending ∧
              pdLe (pdMin prevScheduledDate t.scheduledDate) o.date = true)
      else s
    (ensure_occurrence_for_task_date t t.scheduledDate s1).1
  else
    let s1 := (ensure_occurrence_for_task_date t t.scheduledDate s).1
    let s2 := updateAt s1 (t.id, t.scheduledDate) fun o =>
      { o with
          status := if t.status = .completed then .completed else .pending,
          completedAt := t.completedAt,
          timerSeconds := t.timerTotalSeconds,
          timerRunningSince := t.timerRunningSince }
    s2.filter fun o => ¬ (o.taskId = t.id ∧ ¬ o.date = t.scheduledDate)

/-- Floor of a rational (integer division of numerator by the positive
denominator). -/
def ratFloor (q : Rat) : Int := q.num / q.den

/-- Round a rational to the nearest integer, ties to even — the behaviour of
Python's `round` on the underlying value. -/
def roundHalfEven (q : Rat) : Int :=
  let f := ratFloor q
  let r := q - (f : Rat)
  if r < 1/2 then f
  else if 1/2 < r then f + 1
  else if f % 2 = 0 then f else f + 1

/-- `round(x, 2)`: round to the nearest hundredth. -/
def round2 (q : Rat) : Rat := ((roundHalfEven (q * 100) : Int) : Rat) / 100

/-- The `ratio` field computed by `_day_payload` (exact-rational model of the
float expression `round((completed / scheduled) * 100, 2)`). -/
def dayRatio (scheduled completed : Nat) : Rat :=
  if scheduled ≤ 0 then 0
  else round2 (((completed : Rat) / (scheduled : Rat)) * 100)

/-- The `qualified` flag computed by `_day_payload`. -/
def dayQualified (scheduled completed minDailyTasks thresholdPercent : Nat) : Bool :=
  decide (minDailyTasks ≤ scheduled) &&
    decide ((thresholdPercent : Rat) ≤ dayRatio scheduled completed)

/-- The in-loop qualification test of `_current_streak` (which, unlike
`_day_payload`, compares the unrounded ratio). Dates are identified with
their `toordinal` values, so stepping one day back is `- 1`. -/
def streakQualified (minDailyTasks thresholdPercent : Nat)
    (counts : Int → Nat × Nat) (d : Int) : Bool :=
  let scheduled := (counts d).1
  let completed := (counts d).2
  let ratioQ : Rat :=
    if scheduled ≤ 0 then 0 else ((completed : Rat) / (scheduled : Rat)) * 100
  decide (minDailyTasks ≤ scheduled) && decide ((thresholdPercent : Rat) ≤ ratioQ)

/-- The inner `while cursor >= window_start` loop of `_current_streak`, as
fuel recursion. `.error streak` models the early `return streak` on the first
non-qualifying date; `.ok (cursor, streak)` falls through to the outer loop. -/
def streakInner (q : Int → Bool) (windowStart : Int) :
    Nat → Int → Nat → Except Nat (Int × Nat)
  | 0, cursor, streak => .ok (cursor, streak)
  | fuel + 1, cursor, streak =>
    if windowStart ≤ cursor then
      if q cursor then streakInner q windowStart fuel (cursor - 1) (streak + 1)
      else .error streak
    else .ok (cursor, streak)

/-- The outer `while cursor >= earliest_task_date` loop of `_current_streak`:
each round materializes one window (absorbed into the pure `counts`
aggregate, since windows are disjoint and aggregation per date is
deterministic after materialization) and scans it backward. The inner fuel
`(cursor - windowStart).toNat + 1` is the exact iteration count of the inner
loop. -/
def streakOuter (q : Int → Bool) (earliest : Int) (maxDays : Nat) :
    Nat → Int → Nat → Nat
  | 0, _, streak => streak
  | fuel + 1, cursor, streak =>
    if earliest ≤ cursor then
      let windowStart := max earliest (cursor - ((maxDays : Int) - 1))
      match streakInner q windowStart ((cursor - windowStart).toNat + 1) cursor streak with
      | .error streak => streak
      | .ok (cursor, streak) => streakOuter q earliest maxDays fuel cursor streak
    else streak

/-- `_current_streak(user, min_daily_tasks, threshold_percent, today_utc)`.
`taskDates` are the `scheduled_date` ordinals of the owner's tasks (the
`Min("scheduled_date")` aggregate and the emptiness test read the same set);
`maxDaysSetting` is `settings.MAX_TASK_RANGE_DAYS`. The outer fuel
`(today - earliest).toNat + 1` bounds the number of windows, each of which
moves the cursor at least one day. -/
def current_streak (taskDates : List Int) (minDailyTasks thresholdPercent : Nat)
    (counts : Int → Nat × Nat) (maxDaysSetting : Nat) (today : Int) : Nat :=
  match taskDates.min? with
  | none => 0
  | some earliest =>
    let maxDays := max 1 maxDaysSetting
    if taskDates.isEmpty then 0
    else
      streakOuter (streakQualified minDailyTasks thresholdPercent counts)
        earliest maxDays ((today - earliest).toNat + 1) today 0

/-- Backward count of consecutive qualifying days, written from the spec's
words: scan backward from `cursor`, stop at the first non-qualifying date,
and never count a date earlier than `bound`. -/
def backCount (q : Int → Bool) (bound : Int) : Nat → Int → Nat
  | 0, _ => 0
  | fuel + 1, cursor =>
    if decide (bound ≤ cursor) && q cursor then
      backCount q bound fuel (cursor - 1) + 1
    else 0

/-- The current-streak contract as the spec states it: the count of
consecutive qualifying days ending at (and including) today, never reaching
before the owner's earliest task date, and 0 when the owner has no tasks. -/
def specCurrentStreak (taskDates : List Int) (minDailyTasks thresholdPercent : Nat)
    (counts : Int → Nat × Nat) (today : Int) : Nat :=
  match taskDates.min? with
  | none => 0
  | some earliest =>
    backCount (streakQualified minDailyTasks thresholdPercent counts) earliest
      ((today - earliest).toNat + 1) today

/-- `_best_streak(days)`: single forward pass over the qualified flags. -/
def best_streak (days : List Bool) : Nat :=
  (days.foldl
    (fun acc qualified =>
      if qualified then (max acc.1 (acc.2 + 1), acc.2 + 1) else (acc.1, 0))
    (0, 0)).1

theorem pdLe_refl (a : PDate) : pdLe a a = true := by
  simp [pdLe]

theorem pdLe_antisymm {a b : PDate} (h1 : pdLe a b = true) (h2 : pdLe b a = true) :
    a = b := by
  cases a; cases b; simp [pdLe] at h1 h2 ⊢; omega

theorem pdLe_total (a b : PDate) : pdLe a b = true ∨ pdLe b a = true := by
  cases a; cases b; simp [pdLe]; omega

theorem lookupOcc_append_of_some {s : Store} {k : Nat × PDate} {o : Occ}
    (h : lookupOcc s k = some o) (r : Store) : lookupOcc (s ++ r) k = some o := by
  induction s with
  | nil => simp [lookupOcc] at h
  | cons a rest ih =>
    by_cases hk : occKey a = k
    · simp only [lookupOcc, hk, if_pos rfl] at h ⊢
      simpa [List.cons_append, lookupOcc, hk] using h
    · simp only [lookupOcc, hk, if_neg hk] at h
      simpa [List.cons_append, lookupOcc, hk] using ih h

theorem lookupOcc_append_of_none {s : Store} {k : Nat × PDate}
    (h : lookupOcc s k = none) (r : Store) : lookupOcc (s ++ r) k = lookupOcc r k := by
  induction s with
  | nil => simp
  | cons a rest ih =>
    by_cases hk : occKey a = k
    · simp [lookupOcc, hk] at h
    · simp only [lookupOcc, hk, if_neg hk] at h
      simpa [List.cons_append, lookupOcc, hk] using ih h

theorem mem_of_lookupOcc {s : Store} {k : Nat × PDate} {o : Occ}
    (h : lookupOcc s k = some o) : o ∈ s ∧ occKey o = k := by
  induction s with
  | nil => simp [lookupOcc] at h
  | cons a rest ih =>
    by_cases hk : occKey a = k
    · simp only [lookupOcc, if_pos hk, Option.some.injEq] at h
      subst h; exact ⟨List.mem_cons_self a rest, hk⟩
    · simp only [lookupOcc, if_neg hk] at h
      exact ⟨List.mem_cons_of_mem a (ih h).1, (ih h).2⟩

theorem lookupOcc_isSome_of_mem {s : Store} {o : Occ} (hmem : o ∈ s) :
    (lookupOcc s (occKey o)).isSome = true := by
  induction s with
  | nil => simp at hmem
  | cons a rest ih =>
    by_cases hk : occKey a = occKey o
    · simp [lookupOcc, hk]
    · rcases List.mem_cons.mp hmem with h | h
      · subst h; exact absurd rfl hk
      · simpa [lookupOcc, hk] using ih h

theorem lookupOcc_none_of_forall {s : Store} {k : Nat × PDate}
    (h : ∀ o ∈ s, occKey o ≠ k) : lookupOcc s k = none := by
  induction s with
  | nil => rfl
  | cons a rest ih =>
    have ha := h a (List.mem_cons_self a rest)
    simpa [lookupOcc, ha] using ih fun o ho => h o (List.mem_cons_of_mem a ho)

theorem lookupOcc_of_mem_wf {s : Store} {o : Occ} (hwf : StoreWF s) (hmem : o ∈ s) :
    lookupOcc s (occKey o) = some o := by
  induction s with
  | nil => simp at hmem
  | cons a rest ih =>
    rcases List.mem_cons.mp hmem with h | h
    · subst h; simp [lookupOcc]
    · have hne : occKey a ≠ occKey o :=
        (List.pairwise_cons.mp hwf).1 o h
      simpa [lookupOcc, hne] using ih (List.pairwise_cons.mp hwf).2 h

theorem bulkCreate_exists_append (s : Store) (rows : List Occ) :
    ∃ extra : List Occ, bulkCreateIgnoreConflicts s rows = s ++ extra ∧
      ∀ r ∈ extra, r ∈ rows := by
  induction rows generalizing s with
  | nil => exact ⟨[], by simp [bulkCreateIgnoreConflicts], by simp⟩
  | cons r rest ih =>
    by_cases hc : (lookupOcc s (occKey r)).isSome = true
    · obtain ⟨extra, heq, hmem⟩ := ih s
      refine ⟨extra, ?_, fun x hx => List.mem_cons_of_mem r (hmem x hx)⟩
      simpa [bulkCreateIgnoreConflicts, hc] using heq
    · obtain ⟨extra, heq, hmem⟩ := ih (s ++ [r])
      refine ⟨r :: extra, ?_, ?_⟩
      · simpa [bulkCreateIgnoreConflicts, hc, List.append_assoc] using heq
      · intro x hx
        rcases List.mem_cons.mp hx with h | h
        · rw [h]; exact List.mem_cons_self r rest
        · exact List.mem_cons_of_mem r (hmem x h)

theorem bulkCreate_lookup_some {s : Store} {k : Nat × PDate} {o : Occ}
    (h : lookupOcc s k = some o) (rows : List Occ) :
    lookupOcc (bulkCreateIgnoreConflicts s rows) k = some o := by
  obtain ⟨extra, heq, -⟩ := bulkCreate_exists_append s rows
  rw [heq]; exact lookupOcc_append_of_some h extra

theorem bulkCreate_all_conflict {s : Store} {rows : List Occ}
    (h : ∀ r ∈ rows, (lookupOcc s (occKey r)).isSome = true) :
    bulkCreateIgnoreConflicts s rows = s := by
  induction rows with
  | nil => rfl
  | cons r rest ih =>
    have hr := h r (List.mem_cons_self r rest)
    simpa [bulkCreateIgnoreConflicts, hr] using
      ih fun x hx => h x (List.mem_cons_of_mem r hx)

theorem bulkCreate_lookup_isSome {s : Store} {rows : List Occ} {k : Nat × PDate}
    (h : (lookupOcc s k).isSome = true ∨ ∃ r ∈ rows, occKey r = k) :
    (lookupOcc (bulkCreateIgnoreConflicts s rows) k).isSome = true := by
  induction rows generalizing s with
  | nil =>
    rcases h with h | h
    · simpa [bulkCreateIgnoreConflicts] using h
    · simp at h
  | cons r rest ih =>
    by_cases hc : (lookupOcc s (occKey r)).isSome = true
    · simp only [bulkCreateIgnoreConflicts, List.foldl_cons, hc, if_pos rfl]
      rcases h with h | h
      · exact ih (Or.inl h)
      · rcases h with ⟨x, hx, hk⟩
        rcases List.mem_cons.mp hx with hx' | hx'
        · subst hx'; subst hk; exact ih (Or.inl hc)
        · exact ih (Or.inr ⟨x, hx', hk⟩)
    · simp only [bulkCreateIgnoreConflicts, List.foldl_cons, hc, if_neg, ite_false]
      rcases h with h | h
      · refine ih (Or.inl ?_)
        rcases Option.isSome_iff_exists.mp h with ⟨o, ho⟩
        simp [lookupOcc_append_of_some ho]
      · rcases h with ⟨x, hx, hk⟩
        rcases List.mem_cons.mp hx with hx' | hx'
        · subst hx'
          refine ih (Or.inl ?_)
          rcases Option.isSome_iff_exists.mp
              (lookupOcc_isSome_of_mem (by simp : x ∈ s ++ [x])) with ⟨o, ho⟩
          rw [hk] at ho
          simp [ho]
        · exact ih (Or.inr ⟨x, hx', hk⟩)

theorem seedOccurrence_key (t : TaskDef) (d : PDate) :
    occKey (seedOccurrence t d) = (t.id, d) := by
  unfold seedOccurrence
  split
  · rfl
  · split <;> rfl

theorem buildToCreate_covers {rows : List (TaskDef × PDate)} {t : TaskDef}
    {d : PDate} (h : (t, d) ∈ rows) :
    ∀ pairs : List (Nat × PDate),
      (t.id, d) ∈ pairs ∨ ∃ r ∈ buildToCreate rows pairs, occKey r = (t.id, d) := by
  induction rows with
  | nil => simp at h
  | cons hd rest ih =>
    intro pairs
    obtain ⟨t0, d0⟩ := hd
    by_cases hp : (t0.id, d0) ∈ pairs
    · rcases List.mem_cons.mp h with h' | h'
      · left
        have : t = t0 ∧ d = d0 := by simpa [Prod.ext_iff] using h'
        rw [this.1, this.2]; exact hp
      · rcases ih h' pairs with hl | ⟨r, hr, hk⟩
        · exact Or.inl hl
        · refine Or.inr ⟨r, ?_, hk⟩
          simpa [buildToCreate, hp] using hr
    · rcases List.mem_cons.mp h with h' | h'
      · right
        have ht : t = t0 ∧ d = d0 := by simpa [Prod.ext_iff] using h'
        refine ⟨seedOccurrence t0 d0, ?_, ?_⟩
        · simp [buildToCreate, hp]
        · rw [seedOccurrence_key, ht.1, ht.2]
      · rcases ih h' ((t0.id, d0) :: pairs) with hl | ⟨r, hr, hk⟩
        · rcases List.mem_cons.mp hl with h2 | h2
          · right
            refine ⟨seedOccurrence t0 d0, by simp [buildToCreate, hp], ?_⟩
            rw [seedOccurrence_key, h2]
          · exact Or.inl h2
        · exact Or.inr ⟨r, by simp [buildToCreate, hp, hr], hk⟩

theorem buildToCreate_are_seeds {rows : List (TaskDef × PDate)}
    {pairs : List (Nat × PDate)} {r : Occ} (h : r ∈ buildToCreate rows pairs) :
    ∃ t d, (t, d) ∈ rows ∧ r = seedOccurrence t d := by
  induction rows generalizing pairs with
  | nil => simp [buildToCreate] at h
  | cons hd rest ih =>
    obtain ⟨t0, d0⟩ := hd
    by_cases hp : (t0.id, d0) ∈ pairs
    · simp only [buildToCreate, if_pos hp] at h
      obtain ⟨t, d, hm, he⟩ := ih h
      exact ⟨t, d, List.mem_cons_of_mem _ hm, he⟩
    · simp only [buildToCreate, if_neg hp] at h
      rcases List.mem_cons.mp h with h' | h'
      · exact ⟨t0, d0, List.mem_cons_self _ _, h'⟩
      · obtain ⟨t, d, hm, he⟩ := ih h'
        exact ⟨t, d, List.mem_cons_of_mem _ hm, he⟩

theorem existingPairs_isSome {tasks : List TaskDef} {rangeStart rangeEnd : PDate}
    {s : Store} {k : Nat × PDate} (h : k ∈ existingPairs tasks rangeStart rangeEnd s) :
    (lookupOcc s k).isSome = true := by
  obtain ⟨o, ho, hk⟩ := List.mem_map.mp h
  have hmem : o ∈ s := List.mem_of_mem_filter ho
  rw [← hk]
  exact lookupOcc_isSome_of_mem hmem

theorem mem_ensureRows {tasks : List TaskDef} {rangeStart rangeEnd : PDate}
    {t : TaskDef} {d : PDate} :
    (t, d) ∈ ensureRows tasks rangeStart rangeEnd ↔
      t ∈ tasks ∧ d ∈ occurrence_dates_for_task t rangeStart rangeEnd := by
  constructor
  · intro h
    obtain ⟨t', ht', hd⟩ := List.mem_flatMap.mp h
    obtain ⟨d', hd', heq⟩ := List.mem_map.mp hd
    have : t' = t ∧ d' = d := by simpa [Prod.ext_iff, And.comm] using heq
    exact ⟨this.1 ▸ ht', this.1 ▸ this.2 ▸ hd'⟩
  · intro ⟨ht, hd⟩
    exact List.mem_flatMap.mpr ⟨t, ht, List.mem_map.mpr ⟨d, hd, rfl⟩⟩

theorem ensure_covers {tasks : List TaskDef} {rangeStart rangeEnd : PDate}
    {s : Store} {t : TaskDef} {d : PDate}
    (hrange : pdLe rangeStart rangeEnd = true) (ht : t ∈ tasks)
    (hd : d ∈ occurrence_dates_for_task t rangeStart rangeEnd) :
    (lookupOcc (ensure_occurrences_for_tasks tasks rangeStart rangeEnd s)
      (t.id, d)).isSome = true := by
  have hne : tasks.isEmpty = false := by
    cases tasks with
    | nil => simp at ht
    | cons a l => rfl
  unfold ensure_occurrences_for_tasks
  rw [hne, hrange]
  simp only [Bool.false_or, Bool.not_true, ite_false, Bool.false_eq_true]
  have hrow : (t, d) ∈ ensureRows tasks rangeStart rangeEnd :=
    mem_ensureRows.mpr ⟨ht, hd⟩
  rcases buildToCreate_covers hrow (existingPairs tasks rangeStart rangeEnd s)
      with h | ⟨r, hr, hk⟩
  · exact bulkCreate_lookup_isSome (Or.inl (existingPairs_isSome h))
  · exact bulkCreate_lookup_isSome (Or.inr ⟨r, hr, hk⟩)

theorem ensure_preserves (tasks : List TaskDef) (rangeStart rangeEnd : PDate)
    {s : Store} {k : Nat × PDate} {o : Occ} (h : lookupOcc s k = some o) :
    lookupOcc (ensure_occurrences_for_tasks tasks rangeStart rangeEnd s) k = some o := by
  unfold ensure_occurrences_for_tasks
  split
  · exact h
  · exact bulkCreate_lookup_some h _

theorem ensure_idempotent (tasks : List TaskDef) (rangeStart rangeEnd : PDate)
    (s : Store) :
    ensure_occurrences_for_tasks tasks rangeStart rangeEnd
      (ensure_occurrences_for_tasks tasks rangeStart rangeEnd s) =
    ensure_occurrences_for_tasks tasks rangeStart rangeEnd s := by
  by_cases hg : (tasks.isEmpty || !pdLe rangeStart rangeEnd) = true
  · unfold ensure_occurrences_for_tasks
    rw [if_pos hg, if_pos hg]
  · have hrange : pdLe rangeStart rangeEnd = true := by
      rcases Bool.or_eq_false_iff.mp (Bool.not_eq_true _ ▸ hg : _) with ⟨-, h2⟩
      simpa using h2
    conv =>
      lhs
      unfold ensure_occurrences_for_tasks
    rw [if_neg hg]
    apply bulkCreate_all_conflict
    intro r hr
    obtain ⟨t, d, hrow, hseed⟩ := buildToCreate_are_seeds hr
    obtain ⟨ht, hd⟩ := mem_ensureRows.mp hrow
    rw [hseed, seedOccurrence_key]
    exact ensure_covers hrange ht hd

/-- C3: for `rangeStart <= rangeEnd`, one call to
`ensure_occurrences_for_tasks` leaves a stored row for every `(task, date)`
pair the evaluator produces in the range; a second identical call creates no
additional rows (it returns the store unchanged); and no existing row's
contents are ever overwritten (every previously stored row is still looked up
unchanged). -/
theorem ensure_occurrences_contract (tasks : List TaskDef) (rangeStart rangeEnd : PDate)
    (s : Store) (hrange : pdLe rangeStart rangeEnd = true) :
    (∀ t ∈ tasks, ∀ d ∈ occurrence_dates_for_task t rangeStart rangeEnd,
      (lookupOcc (ensure_occurrences_for_tasks tasks rangeStart rangeEnd s)
        (t.id, d)).isSome = true) ∧
    ensure_occurrences_for_tasks tasks rangeStart rangeEnd
        (ensure_occurrences_for_tasks tasks rangeStart rangeEnd s) =
      ensure_occurrences_for_tasks tasks rangeStart rangeEnd s ∧
    ∀ k o, lookupOcc s k = some o →
      lookupOcc (ensure_occurrences_for_tasks tasks rangeStart rangeEnd s) k = some o := by
  refine ⟨fun t ht d hd => ensure_covers hrange ht hd,
    ensure_idempotent tasks rangeStart rangeEnd s,
    fun k o h => ensure_preserves tasks rangeStart rangeEnd h⟩

/-- A plain pending non-recurring task used by concrete witnesses. -/
def taskW : TaskDef :=
  ⟨1, ⟨1, 1, 1⟩, false, none, [], .pending, none, 0, 0, false, false, none, none⟩

theorem ensure_occurrences_contract_witness :
    pdLe ⟨1, 1, 1⟩ ⟨1, 1, 1⟩ = true ∧
    (lookupOcc (ensure_occurrences_for_tasks [taskW] ⟨1, 1, 1⟩ ⟨1, 1, 1⟩ [])
      (1, ⟨1, 1, 1⟩)).isSome = true ∧
    ensure_occurrences_for_tasks [taskW] ⟨1, 1, 1⟩ ⟨1, 1, 1⟩
        (ensure_occurrences_for_tasks [taskW] ⟨1, 1, 1⟩ ⟨1, 1, 1⟩ []) =
      ensure_occurrences_for_tasks [taskW] ⟨1, 1, 1⟩ ⟨1, 1, 1⟩ [] :=
  ⟨by decide,
    (ensure_occurrences_contract [taskW] ⟨1, 1, 1⟩ ⟨1, 1, 1⟩ [] (by decide)).1
      taskW (by decide) ⟨1, 1, 1⟩ (by decide),
    (ensure_occurrences_contract [taskW] ⟨1, 1, 1⟩ ⟨1, 1, 1⟩ [] (by decide)).2.1⟩

/-- C1 (amended): every row the materializer creates is `seedOccurrence` of
some `(task, date)` pair produced by the evaluator, and `seedOccurrence`
seeds a completed row (carrying the template's completion timestamp and
accumulated timer seconds) iff either the task is non-recurring, marked
completed, and the date is its anchor date, or — the legacy migration path —
the task is recurring, marked completed, and the date is the calendar date of
its stored completion timestamp; every other seed is pending with no
completion data and zero timer seconds. -/
theorem ensure_seed_rule (tasks : List TaskDef) (rangeStart rangeEnd : PDate) (s : Store) :
    (∀ r ∈ ensureCreated tasks rangeStart rangeEnd s, ∃ t, t ∈ tasks ∧
      ∃ d, d ∈ occurrence_dates_for_task t rangeStart rangeEnd ∧
        r = seedOccurrence t d) ∧
    ∀ (t : TaskDef) (d : PDate),
      ((seedOccurrence t d).status = .completed ↔
        (t.isRecurring = false ∧ t.status = .completed ∧ d = t.scheduledDate) ∨
        (t.isRecurring = true ∧ t.status = .completed ∧
          t.completedAt.map (fun ca => ca.date) = some d)) ∧
      ((seedOccurrence t d).status = .completed →
        (seedOccurrence t d).completedAt = t.completedAt ∧
        (seedOccurrence t d).timerSeconds = t.timerTotalSeconds) ∧
      ((seedOccurrence t d).status = .pending →
        (seedOccurrence t d).completedAt = none ∧
        (seedOccurrence t d).timerSeconds = 0) ∧
      (seedOccurrence t d).timerRunningSince = none := by
  constructor
  · intro r hr
    obtain ⟨t, d, hrow, hs⟩ := buildToCreate_are_seeds hr
    obtain ⟨ht, hd⟩ := mem_ensureRows.mp hrow
    exact ⟨t, ht, d, hd, hs⟩
  · intro t d
    unfold seedOccurrence
    split_ifs with h1 h2 <;> simp_all

/-- A recurring template left in the legacy completed state (completion
recorded on the template itself), as the legacy migration branch of the
materializer expects to find in historical data. -/
def taskLegacy : TaskDef :=
  ⟨1, ⟨1, 1, 1⟩, true, some .daily, [], .completed, some ⟨⟨1, 1, 3⟩, 0⟩, 7, 0,
    false, false, none, none⟩

/-- C1 counterexample: a recurring task marked completed on the template is
materialized as a *completed* occurrence on the date of its stored completion
timestamp, although the claim says only non-recurring tasks can seed a
completed occurrence and everything else is seeded pending. -/
theorem ensure_seed_rule_counterexample :
    taskLegacy.isRecurring = true ∧
    lookupOcc (ensure_occurrences_for_tasks [taskLegacy] ⟨1, 1, 3⟩ ⟨1, 1, 3⟩ [])
        (1, ⟨1, 1, 3⟩) =
      some ⟨1, ⟨1, 1, 3⟩, .completed, some ⟨⟨1, 1, 3⟩, 0⟩, 7, none⟩ := by
  exact ⟨rfl, by decide⟩

theorem ensure_seed_rule_witness :
    (∀ r ∈ ensureCreated [taskLegacy] ⟨1, 1, 3⟩ ⟨1, 1, 3⟩ [], ∃ t, t ∈ [taskLegacy] ∧
      ∃ d, d ∈ occurrence_dates_for_task t ⟨1, 1, 3⟩ ⟨1, 1, 3⟩ ∧
        r = seedOccurrence t d) ∧
    ((seedOccurrence taskLegacy ⟨1, 1, 3⟩).status = .completed ↔
      (taskLegacy.isRecurring = false ∧ taskLegacy.status = .completed ∧
        (⟨1, 1, 3⟩ : PDate) = taskLegacy.scheduledDate) ∨
      (taskLegacy.isRecurring = true ∧ taskLegacy.status = .completed ∧
        taskLegacy.completedAt.map (fun ca => ca.date) = some ⟨1, 1, 3⟩)) :=
  ⟨(ensure_seed_rule [taskLegacy] ⟨1, 1, 3⟩ ⟨1, 1, 3⟩ []).1,
    ((ensure_seed_rule [taskLegacy] ⟨1, 1, 3⟩ ⟨1, 1, 3⟩ []).2 taskLegacy ⟨1, 1, 3⟩).1⟩

theorem monthLength_le_31 (y m : Nat) : monthLength y m ≤ 31 := by
  unfold monthLength
  split_ifs <;> omega

theorem monthLength_feb (y : Nat) : monthLength y 2 ≤ 29 := by
  unfold monthLength
  split_ifs <;> omega

theorem nextMonthStart_index (c : PDate) :
    (nextMonthStart c).year * 12 + (nextMonthStart c).month = c.year * 12 + c.month + 1 := by
  unfold nextMonthStart
  split_ifs with h <;> simp <;> omega

theorem iterMonthlyAux_mem {startD endD : PDate} {day : Nat} :
    ∀ (fuel : Nat) (cursor : PDate), ∀ r ∈ iterMonthlyAux startD endD day fuel cursor,
      r.day = day ∧ day ≤ monthLength r.year r.month ∧
      pdLe startD r = true ∧ pdLe r endD = true ∧
      cursor.year * 12 + cursor.month ≤ r.year * 12 + r.month := by
  intro fuel
  induction fuel with
  | zero => intro cursor r hr; simp [iterMonthlyAux] at hr
  | succ n ih =>
    intro cursor r hr
    unfold iterMonthlyAux at hr
    by_cases hle : pdLe cursor endD = true
    · rw [if_pos hle] at hr
      by_cases hc : day ≤ monthLength cursor.year cursor.month ∧
          pdLe startD ⟨cursor.year, cursor.month, day⟩ = true ∧
          pdLe ⟨cursor.year, cursor.month, day⟩ endD = true
      · rw [if_pos hc] at hr
        rcases List.mem_cons.mp hr with h | h
        · rw [h]; exact ⟨rfl, hc.1, hc.2.1, hc.2.2, Nat.le_refl _⟩
        · obtain ⟨p1, p2, p3, p4, p5⟩ := ih (nextMonthStart cursor) r h
          refine ⟨p1, p2, p3, p4, ?_⟩
          have := nextMonthStart_index cursor
          omega
      · rw [if_neg hc] at hr
        obtain ⟨p1, p2, p3, p4, p5⟩ := ih (nextMonthStart cursor) r hr
        refine ⟨p1, p2, p3, p4, ?_⟩
        have := nextMonthStart_index cursor
        omega
    · rw [if_neg hle] at hr
      simp at hr

theorem iterMonthlyAux_pairwise {startD endD : PDate} {day : Nat} :
    ∀ (fuel : Nat) (cursor : PDate),
      List.Pairwise (fun a b : PDate => a.year * 12 + a.month < b.year * 12 + b.month)
        (iterMonthlyAux startD endD day fuel cursor) := by
  intro fuel
  induction fuel with
  | zero => intro cursor; simp [iterMonthlyAux]
  | succ n ih =>
    intro cursor
    unfold iterMonthlyAux
    by_cases hle : pdLe cursor endD = true
    · rw [if_pos hle]
      by_cases hc : day ≤ monthLength cursor.year cursor.month ∧
          pdLe startD ⟨cursor.year, cursor.month, day⟩ = true ∧
          pdLe ⟨cursor.year, cursor.month, day⟩ endD = true
      · rw [if_pos hc]
        refine List.pairwise_cons.mpr ⟨?_, ih (nextMonthStart cursor)⟩
        intro b hb
        have hidx := (iterMonthlyAux_mem n (nextMonthStart cursor) b hb).2.2.2.2
        have := nextMonthStart_index cursor
        simp only []
        omega
      · rw [if_neg hc]
        exact ih (nextMonthStart cursor)
    · rw [if_neg hle]
      simp

theorem pairwise_month_inj {L : List PDate}
    (hp : List.Pairwise (fun a b : PDate => a.year * 12 + a.month < b.year * 12 + b.month) L) :
    ∀ a ∈ L, ∀ b ∈ L, a.year = b.year → a.month = b.month → a = b := by
  induction L with
  | nil => simp
  | cons x rest ih =>
    obtain ⟨hx, hrest⟩ := List.pairwise_cons.mp hp
    intro a ha b hb hy hm
    rcases List.mem_cons.mp ha with ha' | ha' <;> rcases List.mem_cons.mp hb with hb' | hb'
    · rw [ha', hb']
    · exfalso
      have := hx b hb'
      rw [ha'] at hy hm
      omega
    · exfalso
      have := hx a ha'
      rw [hb'] at hy hm
      omega
    · exact ih hrest a ha' b hb' hy hm

theorem monthly_branch_eq (t : TaskDef) (rangeStart rangeEnd : PDate)
    (h1 : t.isRecurring = true) (h2 : t.recurringPattern = some .monthly) :
    occurrence_dates_for_task t rangeStart rangeEnd = [] ∨
    occurrence_dates_for_task t rangeStart rangeEnd =
      iterMonthlyDates (pdMax t.scheduledDate rangeStart) rangeEnd
        t.scheduledDate.day := by
  simp only [occurrence_dates_for_task, h1, h2]
  split_ifs <;> simp_all

/-- C6: for a monthly task, every produced date's day-of-month equals the
anchor's day and fits inside its month (so months shorter than the anchor day
are skipped entirely), each calendar month contributes at most one date, and
a day-31 anchor yields only dates in 31-day months — never in a 30-day month
and never in February. -/
theorem monthly_recurrence_rule (t : TaskDef) (rangeStart rangeEnd : PDate)
    (h1 : t.isRecurring = true) (h2 : t.recurringPattern = some .monthly) :
    (∀ d ∈ occurrence_dates_for_task t rangeStart rangeEnd,
      d.day = t.scheduledDate.day ∧ t.scheduledDate.day ≤ monthLength d.year d.month) ∧
    (∀ a ∈ occurrence_dates_for_task t rangeStart rangeEnd,
      ∀ b ∈ occurrence_dates_for_task t rangeStart rangeEnd,
        a.year = b.year → a.month = b.month → a = b) ∧
    (t.scheduledDate.day = 31 →
      ∀ d ∈ occurrence_dates_for_task t rangeStart rangeEnd,
        monthLength d.year d.month = 31 ∧ d.month ≠ 2) := by
  have hmem : ∀ d ∈ occurrence_dates_for_task t rangeStart rangeEnd,
      d.day = t.scheduledDate.day ∧ t.scheduledDate.day ≤ monthLength d.year d.month := by
    rcases monthly_branch_eq t rangeStart rangeEnd h1 h2 with hL | hL <;> rw [hL]
    · simp
    · intro d hd
      have := iterMonthlyAux_mem _ _ d hd
      exact ⟨this.1, this.1 ▸ this.2.1⟩
  refine ⟨hmem, ?_, ?_⟩
  · rcases monthly_branch_eq t rangeStart rangeEnd h1 h2 with hL | hL <;> rw [hL]
    · simp
    · exact pairwise_month_inj (iterMonthlyAux_pairwise _ _)
  · intro h31 d hd
    obtain ⟨-, hle⟩ := hmem d hd
    rw [h31] at hle
    have h1' := monthLength_le_31 d.year d.month
    refine ⟨by omega, ?_⟩
    intro hm
    have := monthLength_feb d.year
    rw [hm] at hle
    omega

/-- A monthly task anchored on day 31, for the concrete witness. -/
def taskM : TaskDef :=
  ⟨1, ⟨1, 1, 31⟩, true, some .monthly, [], .pending, none, 0, 0, false, false,
    none, none⟩

theorem monthly_recurrence_rule_witness :
    taskM.isRecurring = true ∧ taskM.recurringPattern = some .monthly ∧
    occurrence_dates_for_task taskM ⟨1, 1, 1⟩ ⟨1, 4, 30⟩ =
      [⟨1, 1, 31⟩, ⟨1, 3, 31⟩] ∧
    (taskM.scheduledDate.day = 31 →
      ∀ d ∈ occurrence_dates_for_task taskM ⟨1, 1, 1⟩ ⟨1, 4, 30⟩,
        monthLength d.year d.month = 31 ∧ d.month ≠ 2) :=
  ⟨rfl, rfl, by decide,
    (monthly_recurrence_rule taskM ⟨1, 1, 1⟩ ⟨1, 4, 30⟩ rfl rfl).2.2⟩

theorem wf_key_inj {s : Store} (hwf : StoreWF s) {a b : Occ} (ha : a ∈ s) (hb : b ∈ s)
    (hk : occKey a = occKey b) : a = b := by
  have h1 := lookupOcc_of_mem_wf hwf ha
  have h2 := lookupOcc_of_mem_wf hwf hb
  rw [hk] at h1
  rw [h1] at h2
  exact (Option.some.injEq _ _ ▸ h2 : a = b)

theorem StoreWF_filter {s : Store} (hwf : StoreWF s) (p : Occ → Bool) :
    StoreWF (s.filter p) :=
  List.Pairwise.sublist (List.filter_sublist s) hwf

theorem StoreWF_append_fresh {s : Store} {r : Occ} (hwf : StoreWF s)
    (hfresh : lookupOcc s (occKey r) = none) : StoreWF (s ++ [r]) := by
  rw [StoreWF, List.pairwise_append]
  refine ⟨hwf, List.pairwise_singleton _ _, ?_⟩
  intro a ha b hb
  have hb' : b = r := by simpa using hb
  rw [hb']
  intro hk
  have := lookupOcc_isSome_of_mem ha
  rw [hk, hfresh] at this
  simp at this

theorem StoreWF_bulkCreate {s : Store} (hwf : StoreWF s) (rows : List Occ) :
    StoreWF (bulkCreateIgnoreConflicts s rows) := by
  induction rows generalizing s with
  | nil => exact hwf
  | cons r rest ih =>
    by_cases hc : (lookupOcc s (occKey r)).isSome = true
    · simpa [bulkCreateIgnoreConflicts, hc] using ih hwf
    · have hnone : lookupOcc s (occKey r) = none :=
        Option.not_isSome_iff_eq_none.mp (by simpa using hc)
      simpa [bulkCreateIgnoreConflicts, hc] using ih (StoreWF_append_fresh hwf hnone)

theorem StoreWF_ensure {s : Store} (hwf : StoreWF s) (tasks : List TaskDef)
    (rangeStart rangeEnd : PDate) :
    StoreWF (ensure_occurrences_for_tasks tasks rangeStart rangeEnd s) := by
  unfold ensure_occurrences_for_tasks
  split
  · exact hwf
  · exact StoreWF_bulkCreate hwf _

theorem ensure_occ_fst (t : TaskDef) (d : PDate) (s : Store) :
    (ensure_occurrence_for_task_date t d s).1 =
      if (lookupOcc (ensure_occurrences_for_tasks [t] d d s) (t.id, d)).isSome
      then ensure_occurrences_for_tasks [t] d d s
      else ensure_occurrences_for_tasks [t] d d s ++
        [⟨t.id, d, .pending, none, 0, none⟩] := by
  unfold ensure_occurrence_for_task_date
  cases hcase : lookupOcc (ensure_occurrences_for_tasks [t] d d s) (t.id, d) <;>
    simp [hcase]

theorem StoreWF_ensure_occ {s : Store} (hwf : StoreWF s) (t : TaskDef) (d : PDate) :
    StoreWF (ensure_occurrence_for_task_date t d s).1 := by
  rw [ensure_occ_fst]
  have h1 := StoreWF_ensure hwf [t] d d
  split_ifs with hc
  · exact h1
  · exact StoreWF_append_fresh h1 (Option.not_isSome_iff_eq_none.mp (by simpa using hc))

theorem lookupOcc_updateAt {f : Occ → Occ} (hf : ∀ o, occKey (f o) = occKey o)
    (s : Store) (k k' : Nat × PDate) :
    lookupOcc (updateAt s k f) k' =
      (lookupOcc s k').map fun o => if occKey o = k then f o else o := by
  induction s with
  | nil => rfl
  | cons a rest ih =>
    simp only [updateAt, List.map_cons, lookupOcc] at *
    by_cases hak : occKey a = k <;> by_cases hk : occKey a = k' <;>
      by_cases hkk : k = k' <;> simp_all

theorem lookupOcc_filter_of_true {s : Store} {k : Nat × PDate} {o : Occ}
    {p : Occ → Bool} (hwf : StoreWF s) (h : lookupOcc s k = some o)
    (hp : p o = true) : lookupOcc (s.filter p) k = some o := by
  obtain ⟨hmem, hk⟩ := mem_of_lookupOcc h
  have : o ∈ s.filter p := List.mem_filter.mpr ⟨hmem, hp⟩
  rw [← hk]
  exact lookupOcc_of_mem_wf (StoreWF_filter hwf p) this

theorem lookupOcc_filter_of_false {s : Store} {k : Nat × PDate} {o : Occ}
    {p : Occ → Bool} (hwf : StoreWF s) (h : lookupOcc s k = some o)
    (hp : p o = false) : lookupOcc (s.filter p) k = none := by
  obtain ⟨hmem, hk⟩ := mem_of_lookupOcc h
  apply lookupOcc_none_of_forall
  intro x hx hxk
  have hxs : x ∈ s := List.mem_of_mem_filter hx
  have hxo : x = o := wf_key_inj hwf hxs hmem (by rw [hxk, hk])
  have := List.of_mem_filter hx
  rw [hxo, hp] at this
  simp at this

theorem iterYearlyDates_mem {startD endD : PDate} {month day : Nat} {r : PDate}
    (h : r ∈ iterYearlyDates startD endD month day) :
    pdLe startD r = true ∧ pdLe r endD = true := by
  unfold iterYearlyDates at h
  generalize (List.range (endD.year + 1 - startD.year)).map (fun i => startD.year + i) = ys at h
  induction ys with
  | nil => simp at h
  | cons y rest ih =>
    simp only [List.foldr_cons] at h
    by_cases h1 : day ≤ monthLength y month
    · rw [if_pos h1] at h
      by_cases h2 : (pdLe startD ⟨y, month, day⟩ && pdLe ⟨y, month, day⟩ endD) = true
      · rw [if_pos h2] at h
        rcases List.mem_cons.mp h with h' | h'
        · rw [h']
          exact (by simpa using h2 :
            pdLe startD ⟨y, month, day⟩ = true ∧ pdLe ⟨y, month, day⟩ endD = true)
        · exact ih h'
      · rw [if_neg h2] at h
        exact ih h
    · rw [if_neg h1] at h
      exact ih h

theorem occurrence_dates_single {t : TaskDef} {a d : PDate}
    (h : d ∈ occurrence_dates_for_task t a a) : d = a := by
  have hone : ((toOrdinal a : Int) - (toOrdinal a : Int) + 1).toNat = 1 := by omega
  unfold occurrence_dates_for_task at h
  rw [if_neg (by simp [pdLe_refl])] at h
  by_cases hf : pdLe t.scheduledDate a = true
  · rw [if_neg (by simp [hf])] at h
    have heff : pdMax t.scheduledDate a = a := by
      unfold pdMax
      rw [if_pos hf]
    simp only [heff] at h
    by_cases c1 : t.isRecurring = false ∨ t.recurringPattern = none
    · rw [if_pos c1] at h
      split_ifs at h with c6
      · have hd : d = t.scheduledDate := by simpa using h
        rw [hd]
        exact pdLe_antisymm hf c6.1
      · simp at h
    · rw [if_neg c1] at h
      by_cases c2 : t.recurringPattern = some RecurringPattern.daily
      · rw [if_pos c2, hone, (by decide : List.range 1 = [0])] at h
        simp only [List.map_cons, List.map_nil, List.mem_singleton] at h
        rw [h]
        rfl
      · rw [if_neg c2] at h
        by_cases c3 : t.recurringPattern = some RecurringPattern.monthly
        · rw [if_pos c3] at h
          have hm := iterMonthlyAux_mem _ _ d h
          exact pdLe_antisymm hm.2.2.2.1 hm.2.2.1
        · rw [if_neg c3] at h
          by_cases c4 : t.recurringPattern = some RecurringPattern.yearly
          · rw [if_pos c4] at h
            have hy := iterYearlyDates_mem h
            exact pdLe_antisymm hy.2 hy.1
          · rw [if_neg c4] at h
            by_cases c5 : t.customDays = []
            · rw [if_pos c5] at h
              split_ifs at h with c6
              · have hd : d = t.scheduledDate := by simpa using h
                rw [hd]
                exact pdLe_antisymm hf c6.1
              · simp at h
            · rw [if_neg c5, hone, (by decide : List.range 1 = [0])] at h
              simp only [List.map_cons, List.map_nil] at h
              have hd : d = addDays a 0 := by
                have := List.mem_of_mem_filter h
                simpa using this
              rw [hd]
              rfl
  · rw [if_pos (by simp [hf])] at h
    simp at h

theorem bulkCreate_all_eq {s : Store} {rows : List Occ} {v : Occ}
    (h : ∀ r ∈ rows, r = v) :
    bulkCreateIgnoreConflicts s rows = s ∨
    bulkCreateIgnoreConflicts s rows = s ++ [v] := by
  cases rows with
  | nil => exact Or.inl rfl
  | cons r rest =>
    have hr : r = v := h r (List.mem_cons_self r rest)
    subst hr
    by_cases hc : (lookupOcc s (occKey r)).isSome = true
    · left
      simp only [bulkCreateIgnoreConflicts, List.foldl_cons, hc, if_pos rfl]
      exact bulkCreate_all_conflict fun x hx => by
        rw [h x (List.mem_cons_of_mem r hx)]
        exact hc
    · right
      simp only [bulkCreateIgnoreConflicts, List.foldl_cons, hc, ite_false, if_neg]
      refine bulkCreate_all_conflict fun x hx => ?_
      rw [h x (List.mem_cons_of_mem r hx)]
      have : r ∈ s ++ [r] := by simp
      exact lookupOcc_isSome_of_mem this

theorem ensure_single_created {t : TaskDef} {d : PDate} {s : Store} {r : Occ}
    (hr : r ∈ ensureCreated [t] d d s) : r = seedOccurrence t d := by
  obtain ⟨t', d', hrow, hs⟩ := buildToCreate_are_seeds hr
  obtain ⟨ht', hd'⟩ := mem_ensureRows.mp hrow
  have ht : t' = t := by simpa using ht'
  subst ht
  have hd : d' = d := occurrence_dates_single hd'
  subst hd
  exact hs

theorem seedOccurrence_pending {t : TaskDef} {d : PDate} (h : t.status = .pending) :
    seedOccurrence t d = ⟨t.id, d, .pending, none, 0, none⟩ := by
  simp [seedOccurrence, h]

theorem ensure_occ_preserves {t : TaskDef} {d : PDate} {s : Store} {k : Nat × PDate}
    {o : Occ} (h : lookupOcc s k = some o) :
    lookupOcc (ensure_occurrence_for_task_date t d s).1 k = some o := by
  rw [ensure_occ_fst]
  have h1 := ensure_preserves [t] d d h
  split_ifs with hc
  · exact h1
  · exact lookupOcc_append_of_some h1 _

theorem ensure_occ_key_isSome (t : TaskDef) (d : PDate) (s : Store) :
    (lookupOcc (ensure_occurrence_for_task_date t d s).1 (t.id, d)).isSome = true := by
  rw [ensure_occ_fst]
  split_ifs with hc
  · exact hc
  · have hnone : lookupOcc (ensure_occurrences_for_tasks [t] d d s) (t.id, d) = none :=
      Option.not_isSome_iff_eq_none.mp (by simpa using hc)
    rw [lookupOcc_append_of_none hnone]
    simp [lookupOcc, occKey]

theorem ensure_occ_pending_value {t : TaskDef} {d : PDate} {s : Store}
    (hst : t.status = .pending) (hnone : lookupOcc s (t.id, d) = none) :
    lookupOcc (ensure_occurrence_for_task_date t d s).1 (t.id, d) =
      some ⟨t.id, d, .pending, none, 0, none⟩ := by
  have hplain : ∀ r ∈ ensureCreated [t] d d s, r = (⟨t.id, d, .pending, none, 0, none⟩ : Occ) :=
    fun r hr => (ensure_single_created hr).trans (seedOccurrence_pending hst)
  have hens : ensure_occurrences_for_tasks [t] d d s = s ∨
      ensure_occurrences_for_tasks [t] d d s = s ++ [⟨t.id, d, .pending, none, 0, none⟩] := by
    unfold ensure_occurrences_for_tasks
    rw [if_neg (by simp [pdLe_refl])]
    exact bulkCreate_all_eq hplain
  rw [ensure_occ_fst]
  rcases hens with he | he <;> rw [he]
  · rw [hnone]
    simp only [Option.isSome_none, Bool.false_eq_true, if_false]
    rw [lookupOcc_append_of_none hnone]
    simp [lookupOcc, occKey]
  · have : lookupOcc (s ++ [(⟨t.id, d, .pending, none, 0, none⟩ : Occ)]) (t.id, d) =
        some ⟨t.id, d, .pending, none, 0, none⟩ := by
      rw [lookupOcc_append_of_none hnone]
      simp [lookupOcc, occKey]
    rw [this]
    simp only [Option.isSome_some, if_pos rfl]
    exact this

theorem resolveTargetDate_ok {t : TaskDef} {d : PDate}
    (h : task_occurs_on_date t d = true) : resolveTargetDate t (some d) = .ok d := by
  unfold resolveTargetDate
  rw [if_neg (by simp)]
  simp [h]

theorem resolveTargetDate_bad {t : TaskDef} {d : PDate}
    (h : task_occurs_on_date t d = false) :
    resolveTargetDate t (some d) = .error .validationError := by
  unfold resolveTargetDate
  rw [if_neg (by simp)]
  simp [h]

theorem resolveTargetDate_required {t : TaskDef} (h : t.isRecurring = true) :
    resolveTargetDate t none = .error .occurrenceDateRequired := by
  unfold resolveTargetDate
  rw [if_pos ⟨h, rfl⟩]

/-- C9: the four single-occurrence operations reject a requested date that
the recurrence rule does not produce for the task with a `ValidationError`,
resolve the requested date itself (and run) when the rule does produce it,
and reject a recurring task with no supplied date with the typed
`occurrence_date_required` error instead of defaulting. -/
theorem single_occurrence_validation (t : TaskDef) (d : PDate) (now : PDateTime)
    (s : Store) :
    (task_occurs_on_date t d = false →
      resolveTargetDate t (some d) = .error .validationError ∧
      get_task_occurrence t d s = .error .validationError ∧
      complete_task t (some d) now s = .error .validationError ∧
      start_timer t (some d) now s = .error .validationError ∧
      stop_timer t (some d) now s = .error .validationError) ∧
    (task_occurs_on_date t d = true →
      resolveTargetDate t (some d) = .ok d ∧
      (∃ out, get_task_occurrence t d s = .ok out) ∧
      (∃ s1, complete_task t (some d) now s = .ok s1) ∧
      (∃ s2, start_timer t (some d) now s = .ok s2) ∧
      (∃ s3, stop_timer t (some d) now s = .ok s3)) ∧
    (t.isRecurring = true →
      resolveTargetDate t none = .error .occurrenceDateRequired ∧
      complete_task t none now s = .error .occurrenceDateRequired ∧
      start_timer t none now s = .error .occurrenceDateRequired ∧
      stop_timer t none now s = .error .occurrenceDateRequired) := by
  refine ⟨fun h => ?_, fun h => ?_, fun h => ?_⟩
  · have hres := resolveTargetDate_bad h
    exact ⟨hres,
      by unfold get_task_occurrence; rw [hres],
      by unfold complete_task; rw [hres],
      by unfold start_timer; rw [hres],
      by unfold stop_timer; rw [hres]⟩
  · have hres := resolveTargetDate_ok h
    exact ⟨hres,
      ⟨_, by unfold get_task_occurrence; rw [hres]⟩,
      ⟨_, by unfold complete_task; rw [hres]⟩,
      ⟨_, by unfold start_timer; rw [hres]⟩,
      ⟨_, by unfold stop_timer; rw [hres]⟩⟩
  · have hres := resolveTargetDate_required h
    exact ⟨hres,
      by unfold complete_task; rw [hres],
      by unfold start_timer; rw [hres],
      by unfold stop_timer; rw [hres]⟩

/-- A recurring daily task used by operation witnesses. -/
def taskD : TaskDef :=
  ⟨1, ⟨1, 1, 1⟩, true, some .daily, [], .pending, none, 0, 0, false, false,
    none, none⟩

theorem single_occurrence_validation_witness :
    (task_occurs_on_date taskD ⟨1, 1, 2⟩ = true →
      resolveTargetDate taskD (some ⟨1, 1, 2⟩) = .ok ⟨1, 1, 2⟩ ∧
      (∃ out, get_task_occurrence taskD ⟨1, 1, 2⟩ [] = .ok out) ∧
      (∃ s1, complete_task taskD (some ⟨1, 1, 2⟩) ⟨⟨1, 1, 2⟩, 0⟩ [] = .ok s1) ∧
      (∃ s2, start_timer taskD (some ⟨1, 1, 2⟩) ⟨⟨1, 1, 2⟩, 0⟩ [] = .ok s2) ∧
      (∃ s3, stop_timer taskD (some ⟨1, 1, 2⟩) ⟨⟨1, 1, 2⟩, 0⟩ [] = .ok s3)) ∧
    (taskD.isRecurring = true →
      resolveTargetDate taskD none = .error .occurrenceDateRequired ∧
      complete_task taskD none ⟨⟨1, 1, 2⟩, 0⟩ [] = .error .occurrenceDateRequired ∧
      start_timer taskD none ⟨⟨1, 1, 2⟩, 0⟩ [] = .error .occurrenceDateRequired ∧
      stop_timer taskD none ⟨⟨1, 1, 2⟩, 0⟩ [] = .error .occurrenceDateRequired) :=
  ⟨(single_occurrence_validation taskD ⟨1, 1, 2⟩ ⟨⟨1, 1, 2⟩, 0⟩ []).2.1,
    (single_occurrence_validation taskD ⟨1, 1, 2⟩ ⟨⟨1, 1, 2⟩, 0⟩ []).2.2⟩

/-- C10: `start_timer` leaves a stored occurrence wholly unchanged when it is
already completed or already has an active timer session, and sets
`timer_running_since` to the supplied instant exactly when the occurrence is
pending with no active session. -/
theorem start_timer_occurrence_guard (t : TaskDef) (d : PDate) (now : PDateTime)
    (s : Store) (o : Occ) (hd : task_occurs_on_date t d = true)
    (ho : lookupOcc s (t.id, d) = some o) :
    ∃ s', start_timer t (some d) now s = .ok s' ∧
      ((o.status = .completed ∨ o.timerRunningSince ≠ none) →
        lookupOcc s' (t.id, d) = some o) ∧
      (o.status = .pending ∧ o.timerRunningSince = none →
        lookupOcc s' (t.id, d) = some { o with timerRunningSince := some now }) := by
  have hres := resolveTargetDate_ok hd
  have hkey : occKey o = (t.id, d) := (mem_of_lookupOcc ho).2
  have ho1 : lookupOcc (ensure_occurrence_for_task_date t d s).1 (t.id, d) = some o :=
    ensure_occ_preserves ho
  unfold start_timer
  rw [hres]
  refine ⟨_, rfl, ?_, ?_⟩
  · intro hcase
    have hupd := lookupOcc_updateAt
      (f := fun o => if ¬ o.status = .completed ∧ o.timerRunningSince = none then
        { o with timerRunningSince := some now } else o)
      (fun x => by
        by_cases hcx : ¬ x.status = TStatus.completed ∧ x.timerRunningSince = none <;>
          simp [occKey, hcx])
      (ensure_occurrence_for_task_date t d s).1 (t.id, d) (t.id, d)
    rw [ho1] at hupd
    rw [hupd, Option.map_some']
    congr 1
    rw [if_pos hkey, if_neg (by
      rintro ⟨hx1, hx2⟩
      rcases hcase with hc | hc
      · exact hx1 hc
      · exact hc hx2)]
  · intro ⟨h1, h2⟩
    have hupd := lookupOcc_updateAt
      (f := fun o => if ¬ o.status = .completed ∧ o.timerRunningSince = none then
        { o with timerRunningSince := some now } else o)
      (fun x => by
        by_cases hcx : ¬ x.status = TStatus.completed ∧ x.timerRunningSince = none <;>
          simp [occKey, hcx])
      (ensure_occurrence_for_task_date t d s).1 (t.id, d) (t.id, d)
    rw [ho1] at hupd
    rw [hupd, Option.map_some']
    congr 1
    rw [if_pos hkey, if_pos ⟨by simp [h1], h2⟩]

/-- A stored pending occurrence for the witness task on Jan 2 of year 1. -/
def occP : Occ := ⟨1, ⟨1, 1, 2⟩, .pending, none, 0, none⟩

theorem start_timer_occurrence_guard_witness :
    ∃ s', start_timer taskD (some ⟨1, 1, 2⟩) ⟨⟨1, 1, 2⟩, 30⟩ [occP] = .ok s' ∧
      ((occP.status = .completed ∨ occP.timerRunningSince ≠ none) →
        lookupOcc s' (1, ⟨1, 1, 2⟩) = some occP) ∧
      (occP.status = .pending ∧ occP.timerRunningSince = none →
        lookupOcc s' (1, ⟨1, 1, 2⟩) =
          some { occP with timerRunningSince := some ⟨⟨1, 1, 2⟩, 30⟩ }) :=
  start_timer_occurrence_guard taskD ⟨1, 1, 2⟩ ⟨⟨1, 1, 2⟩, 30⟩ [occP] occP
    (by decide) (by decide)

theorem pdMin_le_right (a b : PDate) : pdLe (pdMin a b) b = true := by
  unfold pdMin
  split_ifs with h
  · exact h
  · exact pdLe_refl b

theorem saveNormalize_fields (t : TaskDef) (now : PDateTime) :
    (saveNormalize t now).id = t.id ∧
    (saveNormalize t now).scheduledDate = t.scheduledDate ∧
    (saveNormalize t now).isRecurring = t.isRecurring ∧
    (saveNormalize t now).recurringPattern = t.recurringPattern ∧
    (saveNormalize t now).customDays = t.customDays := by
  cases hrec : t.isRecurring <;> cases hst : t.status <;>
    cases hca : t.completedAt <;> simp [saveNormalize, hrec, hst, hca]

theorem saveNormalize_recurring_pending {t : TaskDef} (now : PDateTime)
    (h : t.isRecurring = true) : (saveNormalize t now).status = .pending := by
  cases hst : t.status <;> cases hca : t.completedAt <;>
    simp [saveNormalize, h, hst, hca]

theorem StoreWF_updateAt {s : Store} (hwf : StoreWF s) (k : Nat × PDate)
    {f : Occ → Occ} (hf : ∀ o, occKey (f o) = occKey o) :
    StoreWF (updateAt s k f) := by
  unfold updateAt StoreWF
  rw [List.pairwise_map]
  refine hwf.imp ?_
  intro a b hab
  by_cases ha : occKey a = k <;> by_cases hb : occKey b = k
  · exact absurd (ha.trans hb.symm) hab
  · simp only [if_pos ha, if_neg hb, hf]
    rw [ha]
    exact fun h => hb h.symm
  · simp only [if_neg ha, if_pos hb, hf]
    rw [hb]
    exact fun h => ha h
  · simp only [if_neg ha, if_neg hb]
    exact hab

theorem updateAt_lookup_isSome {s : Store} {k k' : Nat × PDate} {f : Occ → Occ}
    (hf : ∀ o, occKey (f o) = occKey o) (h : (lookupOcc s k').isSome = true) :
    (lookupOcc (updateAt s k f) k').isSome = true := by
  rw [lookupOcc_updateAt hf]
  simpa using h

theorem ensure_occ_isSome_pres {t : TaskDef} {d : PDate} {s : Store}
    {k : Nat × PDate} (h : (lookupOcc s k).isSome = true) :
    (lookupOcc (ensure_occurrence_for_task_date t d s).1 k).isSome = true := by
  obtain ⟨o, ho⟩ := Option.isSome_iff_exists.mp h
  rw [ensure_occ_preserves ho]
  rfl

theorem ensure_occ_other_none {t : TaskDef} {d : PDate} {s : Store}
    {k : Nat × PDate} (hk : k ≠ (t.id, d)) (hnone : lookupOcc s k = none) :
    lookupOcc (ensure_occurrence_for_task_date t d s).1 k = none := by
  have hens : lookupOcc (ensure_occurrences_for_tasks [t] d d s) k = none := by
    unfold ensure_occurrences_for_tasks
    split
    · exact hnone
    · obtain ⟨extra, heq, hsub⟩ := bulkCreate_exists_append s (ensureCreated [t] d d s)
      rw [heq, lookupOcc_append_of_none hnone]
      apply lookupOcc_none_of_forall
      intro x hx
      rw [ensure_single_created (hsub x hx), seedOccurrence_key]
      exact fun hxx => hk hxx.symm
  rw [ensure_occ_fst]
  split_ifs with hc
  · exact hens
  · rw [lookupOcc_append_of_none hens]
    apply lookupOcc_none_of_forall
    intro x hx
    have hx' : x = (⟨t.id, d, .pending, none, 0, none⟩ : Occ) := by simpa using hx
    rw [hx']
    exact fun hxx => hk hxx.symm

/-- C4 (amended): a recurring template edit that touches the
schedule/recurrence fields deletes every *pending* occurrence of the task
dated on or after `min(old anchor, new anchor)` — whether or not the date
satisfies the new rule — except that the new-anchor date is immediately
re-materialized as a fresh pending occurrence with zero timer state; every
completed occurrence, every other task's occurrence, and every pending
occurrence dated before `min(old anchor, new anchor)` is left untouched. -/
theorem patch_weekday_edit_effects (t0 : TaskDef) (prevSched : PDate)
    (now : PDateTime) (s : Store) (hwf : StoreWF s) (ht0 : t0.isRecurring = true) :
    (∀ k o, lookupOcc s k = some o → o.status = .completed →
      lookupOcc (patch_task_occurrences prevSched true true t0 now s) k = some o) ∧
    (∀ k o, lookupOcc s k = some o → k.1 ≠ t0.id →
      lookupOcc (patch_task_occurrences prevSched true true t0 now s) k = some o) ∧
    (∀ dd o, lookupOcc s (t0.id, dd) = some o → o.status = .pending →
      pdLe (pdMin prevSched t0.scheduledDate) dd = true → dd ≠ t0.scheduledDate →
      lookupOcc (patch_task_occurrences prevSched true true t0 now s)
        (t0.id, dd) = none) ∧
    (∀ o, lookupOcc s (t0.id, t0.scheduledDate) = some o → o.status = .pending →
      lookupOcc (patch_task_occurrences prevSched true true t0 now s)
        (t0.id, t0.scheduledDate) =
        some ⟨t0.id, t0.scheduledDate, .pending, none, 0, none⟩) ∧
    (∀ dd o, lookupOcc s (t0.id, dd) = some o → o.status = .pending →
      pdLe (pdMin prevSched t0.scheduledDate) dd = false →
      lookupOcc (patch_task_occurrences prevSched true true t0 now s)
        (t0.id, dd) = some o) := by
  obtain ⟨hid, hsched, hrec0, -, -⟩ := saveNormalize_fields t0 now
  have hrec : (saveNormalize t0 now).isRecurring = true := by rw [hrec0]; exact ht0
  have hpend : (saveNormalize t0 now).status = .pending :=
    saveNormalize_recurring_pending now ht0
  have hpatch : patch_task_occurrences prevSched true true t0 now s =
      (ensure_occurrence_for_task_date (saveNormalize t0 now)
        (saveNormalize t0 now).scheduledDate
        (s.filter fun o =>
          ¬ (o.taskId = (saveNormalize t0 now).id ∧ o.status = .pending ∧
            pdLe (pdMin prevSched (saveNormalize t0 now).scheduledDate) o.date
              = true))).1 := by
    unfold patch_task_occurrences
    rw [if_pos hrec]
    rfl
  rw [hpatch, hid, hsched]
  have hwf1 : StoreWF (s.filter fun o =>
      ¬ (o.taskId = t0.id ∧ o.status = .pending ∧
        pdLe (pdMin prevSched t0.scheduledDate) o.date = true)) :=
    StoreWF_filter hwf _
  refine ⟨?_, ?_, ?_, ?_, ?_⟩
  · intro k o ho hst
    refine ensure_occ_preserves (lookupOcc_filter_of_true hwf ho ?_)
    simp [hst]
  · intro k o ho hk
    have hkey := (mem_of_lookupOcc ho).2
    have hk1 : k.1 = o.taskId := by rw [← hkey]; rfl
    have htid : o.taskId ≠ t0.id := fun hx => hk (by rw [hk1, hx])
    refine ensure_occ_preserves (lookupOcc_filter_of_true hwf ho ?_)
    simp [htid]
  · intro dd o ho hst hge hne
    have hkey := (mem_of_lookupOcc ho).2
    have htid : o.taskId = t0.id := congrArg Prod.fst hkey
    have hdate : o.date = dd := congrArg Prod.snd hkey
    have hnone := lookupOcc_filter_of_false hwf ho
      (p := fun o => ¬ (o.taskId = t0.id ∧ o.status = .pending ∧
        pdLe (pdMin prevSched t0.scheduledDate) o.date = true))
      (by simp [htid, hst, hdate, hge])
    refine ensure_occ_other_none (fun hx => hne (congrArg Prod.snd hx)) hnone
  · intro o ho hst
    have hkey := (mem_of_lookupOcc ho).2
    have htid : o.taskId = t0.id := congrArg Prod.fst hkey
    have hdate : o.date = t0.scheduledDate := congrArg Prod.snd hkey
    have hnone := lookupOcc_filter_of_false hwf ho
      (p := fun o => ¬ (o.taskId = t0.id ∧ o.status = .pending ∧
        pdLe (pdMin prevSched t0.scheduledDate) o.date = true))
      (by simp [htid, hst, hdate, pdMin_le_right])
    have hv := ensure_occ_pending_value (t := saveNormalize t0 now)
      (d := t0.scheduledDate) hpend (by rw [hid]; exact hnone)
    rw [hid] at hv
    exact hv
  · intro dd o ho hst hlt
    refine ensure_occ_preserves (lookupOcc_filter_of_true hwf ho ?_)
    have hdate : o.date = dd := congrArg Prod.snd (mem_of_lookupOcc ho).2
    simp [hdate, hlt]

/-- A recurring weekday-set task whose (new) rule is Tuesdays only; its
anchor Jan 1 of year 1 is a Monday. -/
def taskC : TaskDef :=
  ⟨1, ⟨1, 1, 1⟩, true, some .custom, [2], .pending, none, 0, 0, false, false,
    none, none⟩

/-- A store holding one pending occurrence of `taskC` on Tuesday Jan 9 with
300 accumulated timer seconds. -/
def storeC : Store := [⟨1, ⟨1, 1, 9⟩, .pending, none, 300, none⟩]

/-- C4 counterexample: the purge deletes a pending occurrence that falls
*inside* the new weekday rule (Jan 9 is a Tuesday and the new rule is
Tuesdays), although the claim says only occurrences outside the new rule are
deleted; its accumulated timer seconds are lost. -/
theorem patch_weekday_edit_counterexample :
    task_occurs_on_date taskC ⟨1, 1, 9⟩ = true ∧
    lookupOcc storeC (1, ⟨1, 1, 9⟩) = some ⟨1, ⟨1, 1, 9⟩, .pending, none, 300, none⟩ ∧
    lookupOcc (patch_task_occurrences ⟨1, 1, 1⟩ true true taskC ⟨⟨1, 1, 9⟩, 0⟩ storeC)
      (1, ⟨1, 1, 9⟩) = none := by
  refine ⟨by decide, by decide, by decide⟩

theorem patch_weekday_edit_effects_witness :
    lookupOcc (patch_task_occurrences ⟨1, 1, 1⟩ true true taskC ⟨⟨1, 1, 9⟩, 0⟩ storeC)
      (1, ⟨1, 1, 9⟩) = none :=
  (patch_weekday_edit_effects taskC ⟨1, 1, 1⟩ ⟨⟨1, 1, 9⟩, 0⟩ storeC
      (by simp [StoreWF, storeC]) rfl).2.2.1 ⟨1, 1, 9⟩ ⟨1, ⟨1, 1, 9⟩, .pending, none, 300, none⟩
    (by decide) rfl (by decide) (by decide)

/-- C5 (amended): materialization, completion and timer start/stop never
delete an occurrence row; a template edit deletes rows only through two
avenues — the recurring-edit purge, which removes only *pending* rows of the
edited task dated on or after `min(old anchor, new anchor)`, and the
non-recurring patch path, which removes every row of the task (completed
included) at dates other than the task's anchor. (Task-deletion cascade is
outside the occurrence-store model.) In particular a completed occurrence
can also be deleted by patching the task while it is non-recurring, not only
by deleting the task. -/
theorem occurrence_deletion_policy (t0 : TaskDef) (dv : Option PDate)
    (now : PDateTime) (s : Store) (hwf : StoreWF s) :
    (∀ tasks rangeStart rangeEnd k, (lookupOcc s k).isSome = true →
      (lookupOcc (ensure_occurrences_for_tasks tasks rangeStart rangeEnd s)
        k).isSome = true) ∧
    (∀ s' k, complete_task t0 dv now s = .ok s' →
      (lookupOcc s k).isSome = true → (lookupOcc s' k).isSome = true) ∧
    (∀ s' k, start_timer t0 dv now s = .ok s' →
      (lookupOcc s k).isSome = true → (lookupOcc s' k).isSome = true) ∧
    (∀ s' k, stop_timer t0 dv now s = .ok s' →
      (lookupOcc s k).isSome = true → (lookupOcc s' k).isSome = true) ∧
    (∀ prevSched prevRec touched k o, lookupOcc s k = some o →
      lookupOcc (patch_task_occurrences prevSched prevRec touched t0 now s) k = none →
      ((saveNormalize t0 now).isRecurring = false ∧ k.1 = t0.id ∧
        k.2 ≠ t0.scheduledDate) ∨
      ((saveNormalize t0 now).isRecurring = true ∧ prevRec = true ∧
        touched = true ∧ k.1 = t0.id ∧ o.status = .pending ∧
        pdLe (pdMin prevSched t0.scheduledDate) k.2 = true)) := by
  obtain ⟨hid, hsched, -, -, -⟩ := saveNormalize_fields t0 now
  refine ⟨?_, ?_, ?_, ?_, ?_⟩
  · intro tasks rangeStart rangeEnd k h
    obtain ⟨o, ho⟩ := Option.isSome_iff_exists.mp h
    rw [ensure_preserves tasks rangeStart rangeEnd ho]
    rfl
  · intro s' k hok h
    unfold complete_task at hok
    cases hres : resolveTargetDate t0 dv with
    | error e => rw [hres] at hok; cases hok
    | ok target =>
      rw [hres] at hok
      have hs' := (Except.ok.injEq _ _ ▸ hok : _ = s')
      rw [← hs']
      refine updateAt_lookup_isSome ?_ (ensure_occ_isSome_pres h)
      intro x
      by_cases hcx : x.timerRunningSince.isSome = true <;> simp [occKey, hcx]
  · intro s' k hok h
    unfold start_timer at hok
    cases hres : resolveTargetDate t0 dv with
    | error e => rw [hres] at hok; cases hok
    | ok target =>
      rw [hres] at hok
      have hs' := (Except.ok.injEq _ _ ▸ hok : _ = s')
      rw [← hs']
      refine updateAt_lookup_isSome ?_ (ensure_occ_isSome_pres h)
      intro x
      by_cases hcx : ¬ x.status = TStatus.completed ∧ x.timerRunningSince = none <;>
        simp [occKey, hcx]
  · intro s' k hok h
    unfold stop_timer at hok
    cases hres : resolveTargetDate t0 dv with
    | error e => rw [hres] at hok; cases hok
    | ok target =>
      rw [hres] at hok
      have hs' := (Except.ok.injEq _ _ ▸ hok : _ = s')
      rw [← hs']
      refine updateAt_lookup_isSome ?_ (ensure_occ_isSome_pres h)
      intro x
      by_cases hcx : x.timerRunningSince.isSome = true <;> simp [occKey, hcx]
  · intro prevSched prevRec touched k o ho hdel
    have hkey := (mem_of_lookupOcc ho).2
    have htid : o.taskId = k.1 := congrArg Prod.fst hkey
    have hdate : o.date = k.2 := congrArg Prod.snd hkey
    cases hrecN : (saveNormalize t0 now).isRecurring with
    | true =>
      right
      unfold patch_task_occurrences at hdel
      rw [if_pos hrecN] at hdel
      by_cases hb : (prevRec && touched) = true
      · rw [if_pos hb] at hdel
        by_cases hkeep : (decide ¬ (o.taskId = (saveNormalize t0 now).id ∧
            o.status = TStatus.pending ∧
            pdLe (pdMin prevSched (saveNormalize t0 now).scheduledDate) o.date
              = true)) = true
        · rw [ensure_occ_preserves (lookupOcc_filter_of_true hwf ho hkeep)] at hdel
          cases hdel
        · have hkeep' : o.taskId = (saveNormalize t0 now).id ∧
              o.status = TStatus.pending ∧
              pdLe (pdMin prevSched (saveNormalize t0 now).scheduledDate) o.date
                = true := by
            simpa using hkeep
          obtain ⟨hb1, hb2⟩ : prevRec = true ∧ touched = true := by simpa using hb
          refine ⟨rfl, hb1, hb2, ?_, hkeep'.2.1, ?_⟩
          · rw [← htid, hkeep'.1, hid]
          · rw [← hdate, ← hsched]
            exact hkeep'.2.2
      · rw [if_neg hb] at hdel
        rw [ensure_occ_preserves ho] at hdel
        cases hdel
    | false =>
      left
      unfold patch_task_occurrences at hdel
      rw [if_neg (by simp [hrecN])] at hdel
      have ho1 : lookupOcc (ensure_occurrence_for_task_date (saveNormalize t0 now)
          (saveNormalize t0 now).scheduledDate s).1 k = some o :=
        ensure_occ_preserves ho
      have hwf2 : StoreWF (updateAt (ensure_occurrence_for_task_date
          (saveNormalize t0 now) (saveNormalize t0 now).scheduledDate s).1
          ((saveNormalize t0 now).id, (saveNormalize t0 now).scheduledDate)
          (fun o => { o with
            status := if (saveNormalize t0 now).status = .completed then
              TStatus.completed else TStatus.pending,
            completedAt := (saveNormalize t0 now).completedAt,
            timerSeconds := (saveNormalize t0 now).timerTotalSeconds,
            timerRunningSince := (saveNormalize t0 now).timerRunningSince })) :=
        StoreWF_updateAt (StoreWF_ensure_occ hwf _ _) _ (fun x => rfl)
      have hupd := lookupOcc_updateAt (s := (ensure_occurrence_for_task_date
          (saveNormalize t0 now) (saveNormalize t0 now).scheduledDate s).1)
        (k := ((saveNormalize t0 now).id, (saveNormalize t0 now).scheduledDate))
        (f := fun o => { o with
          status := if (saveNormalize t0 now).status = .completed then
            TStatus.completed else TStatus.pending,
          completedAt := (saveNormalize t0 now).completedAt,
          timerSeconds := (saveNormalize t0 now).timerTotalSeconds,
          timerRunningSince := (saveNormalize t0 now).timerRunningSince })
        (fun x => rfl) k
      rw [ho1] at hupd
      rw [Option.map_some'] at hupd
      by_cases hq : (decide ¬ ((if occKey o = ((saveNormalize t0 now).id,
          (saveNormalize t0 now).scheduledDate) then
          ({ o with
            status := if (saveNormalize t0 now).status = .completed then
              TStatus.completed else TStatus.pending,
            completedAt := (saveNormalize t0 now).completedAt,
            timerSeconds := (saveNormalize t0 now).timerTotalSeconds,
            timerRunningSince := (saveNormalize t0 now).timerRunningSince } : Occ)
          else o).taskId = (saveNormalize t0 now).id ∧
          ¬ (if occKey o = ((saveNormalize t0 now).id,
            (saveNormalize t0 now).scheduledDate) then
            ({ o with
              status := if (saveNormalize t0 now).status = .completed then
                TStatus.completed else TStatus.pending,
              completedAt := (saveNormalize t0 now).completedAt,
              timerSeconds := (saveNormalize t0 now).timerTotalSeconds,
              timerRunningSince := (saveNormalize t0 now).timerRunningSince } : Occ)
            else o).date = (saveNormalize t0 now).scheduledDate)) = true
      · rw [lookupOcc_filter_of_true hwf2 hupd hq] at hdel
        cases hdel
      · have hq' := by simpa using hq
        obtain ⟨hq1, hq2⟩ := hq'
        constructor
        · rfl
        · by_cases hko : occKey o = ((saveNormalize t0 now).id,
              (saveNormalize t0 now).scheduledDate)
          · rw [if_pos hko] at hq1 hq2
            exact absurd (by simpa using hq2) (by
              simp only [not_not]
              exact (congrArg Prod.snd hko : o.date = _))
          · rw [if_neg hko] at hq1 hq2
            refine ⟨by rw [← htid, hq1, hid], ?_⟩
            rw [← hdate, ← hsched]
            simpa using hq2

/-- A non-recurring task anchored on Jan 5 of year 1. -/
def taskN : TaskDef :=
  ⟨2, ⟨1, 1, 5⟩, false, none, [], .pending, none, 0, 0, false, false, none, none⟩

/-- A store holding a *completed* occurrence of `taskN` on Jan 2 (a date
other than the anchor, as the recurring-era history of the task left it). -/
def storeN : Store :=
  [⟨2, ⟨1, 1, 2⟩, .completed, some ⟨⟨1, 1, 2⟩, 10⟩, 0, none⟩]

/-- C5 counterexample: patching the non-recurring task (no schedule change at
all) deletes its completed occurrence at a non-anchor date — an operation
other than task deletion deletes a completed occurrence. -/
theorem occurrence_deletion_policy_counterexample :
    taskN.isRecurring = false ∧
    lookupOcc storeN (2, ⟨1, 1, 2⟩) =
      some ⟨2, ⟨1, 1, 2⟩, .completed, some ⟨⟨1, 1, 2⟩, 10⟩, 0, none⟩ ∧
    lookupOcc (patch_task_occurrences ⟨1, 1, 5⟩ false false taskN ⟨⟨1, 1, 5⟩, 0⟩ storeN)
      (2, ⟨1, 1, 2⟩) = none := by
  refine ⟨rfl, by decide, by decide⟩

theorem occurrence_deletion_policy_witness :
    ((saveNormalize taskN ⟨⟨1, 1, 5⟩, 0⟩).isRecurring = false ∧
      ((2 : Nat), (⟨1, 1, 2⟩ : PDate)).1 = taskN.id ∧
      ((2 : Nat), (⟨1, 1, 2⟩ : PDate)).2 ≠ taskN.scheduledDate) ∨
    ((saveNormalize taskN ⟨⟨1, 1, 5⟩, 0⟩).isRecurring = true ∧ false = true ∧
      false = true ∧ ((2 : Nat), (⟨1, 1, 2⟩ : PDate)).1 = taskN.id ∧
      (⟨2, ⟨1, 1, 2⟩, .completed, some ⟨⟨1, 1, 2⟩, 10⟩, 0, none⟩ : Occ).status
        = .pending ∧
      pdLe (pdMin ⟨1, 1, 5⟩ taskN.scheduledDate)
        ((2 : Nat), (⟨1, 1, 2⟩ : PDate)).2 = true) :=
  (occurrence_deletion_policy taskN none ⟨⟨1, 1, 5⟩, 0⟩ storeN
      (by simp [StoreWF, storeN])).2.2.2.2
    ⟨1, 1, 5⟩ false false (2, ⟨1, 1, 2⟩)
    ⟨2, ⟨1, 1, 2⟩, .completed, some ⟨⟨1, 1, 2⟩, 10⟩, 0, none⟩
    (by decide) (by decide)

/-- The elapsed-seconds formula exactly as the claim words it: accumulated
plus the raw `now − runningSince` when a session is running, clamped to
`[0, duration]` when the timer duration is positive. -/
def specElapsedClaim (t : TaskDef) (o : Occ) (now : PDateTime) : Int :=
  let base : Int := (o.timerSeconds : Int) +
    (match o.timerRunningSince with
     | some rs => now.toSec - rs.toSec
     | none => 0)
  if 0 < t.timerDurationSeconds then
    max 0 (min base (t.timerDurationSeconds : Int))
  else base

/-- The amended formula: the running addend is `max 0 (now − runningSince)`
(the code never subtracts time when the clock reads earlier than the session
start), with the same clamp. -/
def specElapsedAmended (t : TaskDef) (o : Occ) (now : PDateTime) : Int :=
  let base : Int := (o.timerSeconds : Int) +
    (match o.timerRunningSince with
     | some rs => max 0 (now.toSec - rs.toSec)
     | none => 0)
  if 0 < t.timerDurationSeconds then
    max 0 (min base (t.timerDurationSeconds : Int))
  else base

/-- C7 (amended): elapsed seconds equal accumulated plus
`max 0 (now − runningSince)` while running, clamped to `[0, duration]` when a
duration is set; the result is always within `[0, duration]` in that case;
and the claim's original formula agrees whenever the clock does not read
before the session start (and always when no session is running). -/
theorem occurrence_elapsed_rule (t : TaskDef) (o : Occ) (now : PDateTime) :
    occurrence_elapsed_seconds t o now = specElapsedAmended t o now ∧
    (0 < t.timerDurationSeconds →
      0 ≤ occurrence_elapsed_seconds t o now ∧
      occurrence_elapsed_seconds t o now ≤ (t.timerDurationSeconds : Int)) ∧
    (∀ rs, o.timerRunningSince = some rs → rs.toSec ≤ now.toSec →
      occurrence_elapsed_seconds t o now = specElapsedClaim t o now) ∧
    (o.timerRunningSince = none →
      occurrence_elapsed_seconds t o now = specElapsedClaim t o now) := by
  cases hrun : o.timerRunningSince with
  | none =>
    simp only [occurrence_elapsed_seconds, specElapsedAmended, specElapsedClaim,
      hrun, add_zero]
    refine ⟨?_, fun h => ?_, fun rs' hc => Option.noConfusion hc, fun _ => ?_⟩
    · simp only [Int.min_def, Int.max_def]
      split_ifs <;> omega
    · rw [if_pos h]
      simp only [Int.min_def]
      constructor <;> [skip; skip] <;> split_ifs <;> omega
    · simp only [Int.min_def, Int.max_def]
      split_ifs <;> omega
  | some rs =>
    simp only [occurrence_elapsed_seconds, specElapsedAmended, specElapsedClaim, hrun]
    refine ⟨?_, fun h => ?_, fun rs' hc hle => ?_, fun hc => Option.noConfusion hc⟩
    · simp only [Int.min_def, Int.max_def]
      split_ifs <;> omega
    · rw [if_pos h]
      simp only [Int.min_def, Int.max_def]
      constructor <;> split_ifs <;> omega
    · obtain rfl : rs = rs' := by injection hc
      simp only [Int.min_def, Int.max_def]
      split_ifs <;> omega

/-- A timer-disabled task (duration 0). -/
def taskT : TaskDef :=
  ⟨3, ⟨1, 1, 1⟩, false, none, [], .pending, none, 0, 0, true, false, none, none⟩

/-- An occurrence with 5 accumulated seconds and a session started at second
100 of Jan 1, year 1. -/
def occT : Occ := ⟨3, ⟨1, 1, 1⟩, .pending, none, 5, some ⟨⟨1, 1, 1⟩, 100⟩⟩

/-- C7 counterexample: with the clock read 10 seconds *before* the running
session's start and no duration clamp, the code answers the accumulated 5
seconds (the `max(0, ·)` guard), while the claim's formula answers `-5`. -/
theorem occurrence_elapsed_counterexample :
    occurrence_elapsed_seconds taskT occT ⟨⟨1, 1, 1⟩, 90⟩ = 5 ∧
    specElapsedClaim taskT occT ⟨⟨1, 1, 1⟩, 90⟩ = -5 := by
  refine ⟨by decide, by decide⟩

theorem occurrence_elapsed_rule_witness :
    0 < (5 : Nat) ∧
    (occT.timerRunningSince = some ⟨⟨1, 1, 1⟩, 100⟩ →
      (⟨⟨1, 1, 1⟩, 100⟩ : PDateTime).toSec ≤ (⟨⟨1, 1, 1⟩, 130⟩ : PDateTime).toSec →
      occurrence_elapsed_seconds taskT occT ⟨⟨1, 1, 1⟩, 130⟩ =
        specElapsedClaim taskT occT ⟨⟨1, 1, 1⟩, 130⟩) :=
  ⟨by decide,
    (occurrence_elapsed_rule taskT occT ⟨⟨1, 1, 1⟩, 130⟩).2.2.1 ⟨⟨1, 1, 1⟩, 100⟩⟩

theorem ratFloor_eq (q : Rat) : ratFloor q = ⌊q⌋ := Rat.floor_def.symm

theorem ratFloor_le (q : Rat) : (ratFloor q : Rat) ≤ q := by
  rw [ratFloor_eq]
  exact Int.floor_le q

theorem lt_ratFloor_add_one (q : Rat) : q < ratFloor q + 1 := by
  rw [ratFloor_eq]
  exact_mod_cast Int.lt_floor_add_one q

theorem roundHalfEven_eq_of {q : Rat} {n : Int}
    (h1 : (n : Rat) - 1/2 < q) (h2 : q < (n : Rat) + 1/2) :
    roundHalfEven q = n := by
  unfold roundHalfEven
  dsimp only
  have hf1 := ratFloor_le q
  have hf2 := lt_ratFloor_add_one q
  split_ifs with hr1 hr2 hpar
  · have hfn : ratFloor q ≤ n := by
      by_contra hc
      push_neg at hc
      have : (n : Rat) + 1 ≤ ratFloor q := by exact_mod_cast hc
      linarith
    have hnf : n ≤ ratFloor q := by
      by_contra hc
      push_neg at hc
      have : (ratFloor q : Rat) + 1 ≤ n := by exact_mod_cast hc
      linarith
    omega
  · have h3 : ratFloor q + 1 ≤ n := by
      by_contra hc
      push_neg at hc
      have : (n : Rat) ≤ ratFloor q := by exact_mod_cast (by omega : n ≤ ratFloor q)
      linarith
    have h4 : n ≤ ratFloor q + 1 := by
      by_contra hc
      push_neg at hc
      have : (ratFloor q : Rat) + 2 ≤ n := by
        exact_mod_cast (by omega : ratFloor q + 2 ≤ n)
      linarith
    omega
  all_goals
    exfalso
    have heq : q - ratFloor q = 1/2 := le_antisymm (not_lt.mp hr2) (not_lt.mp hr1)
    have e1 : (n : Rat) - 1 < ratFloor q := by linarith
    have e2 : (ratFloor q : Rat) < n := by linarith
    have i1 : n - 1 < ratFloor q := by exact_mod_cast e1
    have i2 : ratFloor q < n := by exact_mod_cast e2
    omega

/-- C8 (amended): a date qualifies iff its scheduled count reaches the
minimum and the completion ratio *rounded to two decimals* (not the exact
ratio) reaches the threshold percent; a date with `scheduled = 0` never
qualifies under the rules' minimum of at least one task; and under rules
(minDaily = 3, threshold = 80%) the aggregate (3, 2) does not qualify while
(4, 4) does. -/
theorem day_qualification_rule (scheduled completed minDailyTasks thresholdPercent : Nat)
    (hmin : 1 ≤ minDailyTasks) :
    (0 < scheduled →
      (dayQualified scheduled completed minDailyTasks thresholdPercent = true ↔
        (minDailyTasks ≤ scheduled ∧
          (thresholdPercent : Rat) ≤
            round2 (((completed : Rat) / (scheduled : Rat)) * 100)))) ∧
    (scheduled = 0 →
      dayQualified scheduled completed minDailyTasks thresholdPercent = false) ∧
    dayQualified 3 2 3 80 = false ∧
    dayQualified 4 4 3 80 = true := by
  refine ⟨?_, ?_, ?_, ?_⟩
  · intro hpos
    unfold dayQualified dayRatio
    rw [if_neg (by omega)]
    simp
  · intro hz
    subst hz
    have hm : ¬ (minDailyTasks ≤ 0) := by omega
    simp [dayQualified, dayRatio, hm]
  · have hrhe : roundHalfEven (((2 : Nat) : Rat) / ((3 : Nat) : Rat) * 100 * 100)
        = 6667 := by
      apply roundHalfEven_eq_of <;> push_cast <;> norm_num
    have hratio : dayRatio 3 2 = 6667 / 100 := by
      unfold dayRatio round2
      rw [if_neg (by norm_num)]
      rw [hrhe]
      norm_num
    simp only [dayQualified, hratio]
    norm_num
  · have hrhe : roundHalfEven (((4 : Nat) : Rat) / ((4 : Nat) : Rat) * 100 * 100)
        = 10000 := by
      apply roundHalfEven_eq_of <;> push_cast <;> norm_num
    have hratio : dayRatio 4 4 = 100 := by
      unfold dayRatio round2
      rw [if_neg (by norm_num)]
      rw [hrhe]
      norm_num
    simp only [dayQualified, hratio]
    norm_num

/-- C8 counterexample: under rules (minDaily = 1, threshold = 1%), a date
with 2 of 201 tasks completed qualifies in the code — `round((2/201)*100, 2)`
is exactly `1.00` — although its exact completion ratio is below 1%, so the
claim's exact-ratio predicate says it must not qualify. -/
theorem day_qualification_counterexample :
    dayQualified 201 2 1 1 = true ∧
    ¬ ((1 : Rat) ≤ ((2 : Rat) / (201 : Rat)) * 100) := by
  constructor
  · have hrhe : roundHalfEven (((2 : Nat) : Rat) / ((201 : Nat) : Rat) * 100 * 100)
        = 100 := by
      apply roundHalfEven_eq_of <;> push_cast <;> norm_num
    have hratio : dayRatio 201 2 = 1 := by
      unfold dayRatio round2
      rw [if_neg (by norm_num)]
      rw [hrhe]
      norm_num
    simp only [dayQualified, hratio]
    norm_num
  · norm_num

theorem day_qualification_rule_witness :
    (1 : Nat) ≤ 3 ∧ dayQualified 3 2 3 80 = false ∧ dayQualified 4 4 3 80 = true :=
  ⟨by decide, (day_qualification_rule 3 2 3 80 (by decide)).2.2.1,
    (day_qualification_rule 4 4 3 80 (by decide)).2.2.2⟩

theorem backCount_of_not_le (q : Int → Bool) (b : Int) (f : Nat) (c : Int)
    (h : ¬ b ≤ c) : backCount q b f c = 0 := by
  cases f with
  | zero => rfl
  | succ g =>
    unfold backCount
    rw [if_neg (by simp [h])]

theorem backCount_stable (q : Int → Bool) (b : Int) :
    ∀ (f1 f2 : Nat) (c : Int), (c - b).toNat < f1 → (c - b).toNat < f2 →
      backCount q b f1 c = backCount q b f2 c := by
  intro f1
  induction f1 with
  | zero => intro f2 c h1 h2; exact absurd h1 (Nat.not_lt_zero _)
  | succ g ih =>
    intro f2 c h1 h2
    cases f2 with
    | zero => exact absurd h2 (Nat.not_lt_zero _)
    | succ g2 =>
      unfold backCount
      by_cases hc : (decide (b ≤ c) && q c) = true
      · rw [if_pos hc, if_pos hc]
        have hb : b ≤ c := by
          have := hc
          simp only [Bool.and_eq_true, decide_eq_true_eq] at this
          exact this.1
        by_cases hbc : b ≤ c - 1
        · have ha1 : (c - 1 - b).toNat < g := by omega
          have ha2 : (c - 1 - b).toNat < g2 := by omega
          rw [ih g2 (c - 1) ha1 ha2]
        · rw [backCount_of_not_le q b g (c - 1) hbc,
            backCount_of_not_le q b g2 (c - 1) hbc]
      · rw [if_neg hc, if_neg hc]

/-- The backward count with its canonical (exactly sufficient) fuel. -/
def bcW (q : Int → Bool) (b c : Int) : Nat :=
  backCount q b ((c - b).toNat + 1) c

theorem bcW_unfold (q : Int → Bool) (b c : Int) :
    bcW q b c = if decide (b ≤ c) && q c then bcW q b (c - 1) + 1 else 0 := by
  unfold bcW
  conv_lhs => unfold backCount
  by_cases hc : (decide (b ≤ c) && q c) = true
  · rw [if_pos hc, if_pos hc]
    have hb : b ≤ c := by
      have := hc
      simp only [Bool.and_eq_true, decide_eq_true_eq] at this
      exact this.1
    by_cases hbc : b = c
    · subst hbc
      have h0 : (b - b).toNat = 0 := by omega
      have h1 : (b - 1 - b).toNat = 0 := by omega
      rw [h0, h1]
      unfold backCount
      rw [if_neg (by simp [show ¬ (b ≤ b - 1) by omega])]
    · rw [backCount_stable q b ((c - b).toNat) ((c - 1 - b).toNat + 1) (c - 1)
        (by omega) (by omega)]
  · rw [if_neg hc, if_neg hc]

theorem bcW_step_pos {q : Int → Bool} {b c : Int} (hb : b ≤ c) (hq : q c = true) :
    bcW q b c = bcW q b (c - 1) + 1 := by
  rw [bcW_unfold, if_pos (by simp [hb, hq])]

theorem bcW_step_negq {q : Int → Bool} {b c : Int} (hq : q c = false) :
    bcW q b c = 0 := by
  rw [bcW_unfold, if_neg (by simp [hq])]

theorem bcW_step_negb {q : Int → Bool} {b c : Int} (hb : ¬ b ≤ c) :
    bcW q b c = 0 := by
  rw [bcW_unfold, if_neg (by simp [hb])]

theorem bcW_split_full (q : Int → Bool) (e ws : Int) (h1 : e ≤ ws) :
    ∀ (n : Nat) (c : Int), (c - ws).toNat = n → ws ≤ c →
      (c + 1 - ws).toNat ≤ bcW q ws c →
      bcW q e c = (c + 1 - ws).toNat + bcW q e (ws - 1) := by
  intro n
  induction n with
  | zero =>
    intro c hn hwc hfull
    have hc : c = ws := by omega
    subst hc
    have hq : q c = true := by
      cases hqq : q c with
      | false =>
        rw [bcW_step_negq hqq] at hfull
        omega
      | true => rfl
    rw [bcW_step_pos (le_trans h1 hwc) hq]
    omega
  | succ k ih =>
    intro c hn hwc hfull
    have hcws : ws < c := by omega
    have hq : q c = true := by
      cases hqq : q c with
      | false =>
        rw [bcW_step_negq hqq] at hfull
        omega
      | true => rfl
    have hws_c : bcW q ws c = bcW q ws (c - 1) + 1 := bcW_step_pos (by omega) hq
    have he_c : bcW q e c = bcW q e (c - 1) + 1 := bcW_step_pos (by omega) hq
    have hrec := ih (c - 1) (by omega) (by omega) (by omega)
    omega

theorem bcW_narrow (q : Int → Bool) (e ws : Int) (h1 : e ≤ ws) :
    ∀ (n : Nat) (c : Int), (c - ws).toNat = n →
      bcW q ws c < (c + 1 - ws).toNat →
      bcW q e c = bcW q ws c := by
  intro n
  induction n with
  | zero =>
    intro c hn hlt
    by_cases hwc : ws ≤ c
    · have hc : c = ws := by omega
      subst hc
      have h0 : bcW q c c = 0 := by omega
      have hq : q c = false := by
        cases hqq : q c with
        | true =>
          rw [bcW_step_pos (le_refl c) hqq] at h0
          omega
        | false => rfl
      rw [bcW_step_negq hq, h0]
    · omega
  | succ k ih =>
    intro c hn hlt
    have hwc : ws < c := by omega
    cases hq : q c with
    | false => rw [bcW_step_negq hq, bcW_step_negq hq]
    | true =>
      have hws_c : bcW q ws c = bcW q ws (c - 1) + 1 := bcW_step_pos (by omega) hq
      have he_c : bcW q e c = bcW q e (c - 1) + 1 := bcW_step_pos (by omega) hq
      have hrec := ih (c - 1) (by omega) (by omega)
      omega

theorem streakInner_spec (q : Int → Bool) (ws : Int) :
    ∀ (f : Nat) (c : Int) (s : Nat), ws - 1 ≤ c → (c + 1 - ws).toNat ≤ f →
      streakInner q ws f c s =
        if (c + 1 - ws).toNat ≤ bcW q ws c then
          .ok (ws - 1, s + (c + 1 - ws).toNat)
        else .error (s + bcW q ws c) := by
  intro f
  induction f with
  | zero =>
    intro c s h1 h2
    have hc : c = ws - 1 := by omega
    subst hc
    have h0 : (ws - 1 + 1 - ws).toNat = 0 := by omega
    rw [h0]
    rw [if_pos (Nat.zero_le _)]
    simp [streakInner]
  | succ g ih =>
    intro c s h1 h2
    unfold streakInner
    by_cases hcw : ws ≤ c
    · rw [if_pos hcw]
      by_cases hq : q c = true
      · rw [if_pos hq]
        rw [ih (c - 1) (s + 1) (by omega) (by omega)]
        have hbc : bcW q ws c = bcW q ws (c - 1) + 1 := bcW_step_pos hcw hq
        rw [hbc]
        by_cases hcond : (c - 1 + 1 - ws).toNat ≤ bcW q ws (c - 1)
        · rw [if_pos hcond, if_pos (by omega)]
          have harith : s + 1 + (c - 1 + 1 - ws).toNat = s + (c + 1 - ws).toNat := by
            omega
          rw [harith]
        · rw [if_neg hcond, if_neg (by omega)]
          have harith : s + 1 + bcW q ws (c - 1) = s + (bcW q ws (c - 1) + 1) := by
            omega
          rw [harith]
      · rw [if_neg hq]
        have hbc : bcW q ws c = 0 := bcW_step_negq (by
          cases hqq : q c with
          | true => exact absurd hqq hq
          | false => rfl)
        rw [hbc]
        rw [if_neg (by omega)]
        simp
    · rw [if_neg hcw]
      have hc : c = ws - 1 := by omega
      subst hc
      have h0 : (ws - 1 + 1 - ws).toNat = 0 := by omega
      rw [h0, if_pos (Nat.zero_le _)]
      simp

theorem streakOuter_below (q : Int → Bool) (e : Int) (m : Nat) (f : Nat) (c : Int)
    (s : Nat) (h : c < e) : streakOuter q e m f c s = s := by
  cases f with
  | zero => rfl
  | succ g =>
    unfold streakOuter
    rw [if_neg (by omega)]

theorem streakOuter_spec (q : Int → Bool) (e : Int) (m : Nat) (hm : 1 ≤ m) :
    ∀ (f : Nat) (c : Int) (s : Nat), (c - e).toNat < f →
      streakOuter q e m f c s = s + bcW q e c := by
  intro f
  induction f with
  | zero => intro c s h; exact absurd h (Nat.not_lt_zero _)
  | succ g ih =>
    intro c s h
    unfold streakOuter
    by_cases hce : e ≤ c
    · rw [if_pos hce]
      dsimp only
      have hwse : e ≤ max e (c - ((m : Int) - 1)) := le_max_left _ _
      have hwsc : max e (c - ((m : Int) - 1)) ≤ c := by
        apply max_le hce
        omega
      rw [streakInner_spec q (max e (c - ((m : Int) - 1)))
        ((c - max e (c - ((m : Int) - 1))).toNat + 1) c s (by omega) (by omega)]
      by_cases hfull : (c + 1 - max e (c - ((m : Int) - 1))).toNat ≤
          bcW q (max e (c - ((m : Int) - 1))) c
      · rw [if_pos hfull]
        dsimp only
        have hsplit := bcW_split_full q e (max e (c - ((m : Int) - 1))) hwse
          ((c - max e (c - ((m : Int) - 1))).toNat) c rfl hwsc hfull
        by_cases hceq : e = c
        · have hws : max e (c - ((m : Int) - 1)) = e := by omega
          rw [hws] at hsplit ⊢
          rw [streakOuter_below q e m g (e - 1) _ (by omega)]
          have hz : bcW q e (e - 1) = 0 := bcW_step_negb (by omega)
          omega
        · have hlt : (max e (c - ((m : Int) - 1)) - 1 - e).toNat < g := by omega
          rw [ih (max e (c - ((m : Int) - 1)) - 1)
            (s + (c + 1 - max e (c - ((m : Int) - 1))).toNat) hlt]
          omega
      · rw [if_neg hfull]
        dsimp only
        have hnarrow := bcW_narrow q e (max e (c - ((m : Int) - 1))) hwse
          ((c - max e (c - ((m : Int) - 1))).toNat) c rfl (by omega)
        omega
    · rw [if_neg hce]
      have h0 : bcW q e c = 0 := bcW_step_negb hce
      omega

/-- C2: the chunked backward scan of `_current_streak` — bounded windows of
`max(1, MAX_TASK_RANGE_DAYS)` days, each materialized and scanned backward,
continuing to the next (older) window only while every day so far qualified —
computes exactly the spec's current streak: the count of consecutive
qualifying days ending at (and including) today, which is 0 when today does
not qualify, never counts a date earlier than the owner's earliest task
date, and is 0 when the owner has no task definitions at all. -/
theorem current_streak_eq_spec (taskDates : List Int)
    (minDailyTasks thresholdPercent : Nat) (counts : Int → Nat × Nat)
    (maxDaysSetting : Nat) (today : Int) :
    current_streak taskDates minDailyTasks thresholdPercent counts maxDaysSetting
      today =
    specCurrentStreak taskDates minDailyTasks thresholdPercent counts today := by
  unfold current_streak specCurrentStreak
  cases hmin : taskDates.min? with
  | none => rfl
  | some e =>
    have hne : taskDates.isEmpty = false := by
      cases taskDates with
      | nil => simp at hmin
      | cons a l => rfl
    rw [hne]
    dsimp only
    rw [if_neg (by simp)]
    rw [streakOuter_spec (streakQualified minDailyTasks thresholdPercent counts) e
      (max 1 maxDaysSetting) (le_max_left _ _) ((today - e).toNat + 1) today 0
      (by omega)]
    rw [Nat.zero_add]
    rfl
